import Mathlib

/-!
# A shallow embedding of the chained hash map (map.c) and its values (vtype.c)

The C program stores `VType` objects (a tag `'T'` or `'I'` plus a union of a
C string and an `int`) in a table of `TABLE_SIZE = 1024` singly linked bucket
chains, together with a `size_t size` counter.

Modelling decisions:

* a `VType*` is an `Option VType`; `none` is the `NULL` pointer;
* a C string is the list of its `char` values before the terminating NUL, each
  `char` taken as the `int` it promotes to;
* a bucket chain (a `NULL`-terminated linked list of nodes) is a `List Node`,
  head first;
* `unsigned int` is a natural number reduced modulo `2 ^ 32`, `size_t` a natural
  number reduced modulo `2 ^ 64`;
* every `malloc` whose result the code tests is an explicit boolean argument
  (`true`: the allocation succeeded).
-/

namespace Hashmap

/-! ## vtype.h / vtype.c -/

/-- The tagged value of vtype.h: tag `'T'` with `value.text`, or tag `'I'` with
`value.integer`. -/
inductive VType where
  | Text (text : List Int)
  | Integer (integer : Int)
  deriving DecidableEq, Repr

/-- The modulus of `unsigned int` arithmetic. -/
abbrev UINT_MOD : Nat := 2 ^ 32

/-- The modulus of `size_t` arithmetic. -/
abbrev SIZE_MOD : Nat := 2 ^ 64

/-- Factory makeText of vtype.c: `NULL` when `malloc` fails, otherwise a value
tagged `'T'` owning a copy of the string. -/
def makeText (value : List Int) (mallocOk : Bool) : Option VType :=
  if mallocOk then some (VType.Text value) else none

/-- Factory makeInteger of vtype.c: `NULL` when `malloc` fails, otherwise a
value tagged `'I'`. -/
def makeInteger (value : Int) (mallocOk : Bool) : Option VType :=
  if mallocOk then some (VType.Integer value) else none

/-- Function equalsVType of vtype.c: false when either pointer is `NULL` or the
tags differ; otherwise `strcmp(..) == 0` on texts and `==` on integers. -/
def equalsVType : Option VType → Option VType → Bool
  | none, _ => false
  | _, none => false
  | some (VType.Text a), some (VType.Text b) => decide (a = b)
  | some (VType.Integer a), some (VType.Integer b) => decide (a = b)
  | some (VType.Text _), some (VType.Integer _) => false
  | some (VType.Integer _), some (VType.Text _) => false

/-- The most significant decimal digits of `n` pushed in front of `acc`, as
character codes; `fuel` bounds the number of digits. -/
def decimalCore : Nat → Nat → List Int → List Int
  | 0, _, acc => acc
  | fuel + 1, n, acc =>
    if n / 10 = 0 then (48 + ((n % 10 : Nat) : Int)) :: acc
    else decimalCore fuel (n / 10) ((48 + ((n % 10 : Nat) : Int)) :: acc)

/-- The characters `sprintf(buffer, "%d", i)` writes: a minus sign for a
negative number, then the decimal digits without padding. -/
def sprintfD (i : Int) : List Int :=
  if i < 0 then 45 :: decimalCore (i.natAbs + 1) i.natAbs []
  else decimalCore (i.natAbs + 1) i.natAbs []

/-- The loop `while ((c = *str++)) hash = ((hash << 5) + hash) + c;` of
hashVType, in `unsigned int` arithmetic; `c` is an `int` converted to
`unsigned int` by the addition. -/
def hashLoop : Nat → List Int → Nat
  | hash, [] => hash
  | hash, c :: str =>
    hashLoop ((((hash * 32) % UINT_MOD + hash) % UINT_MOD + (c % (UINT_MOD : Int)).toNat) % UINT_MOD) str

/-- Function hashVType of vtype.c: 0 for `NULL`; otherwise the loop above from
5381 over the text, or over the decimal rendering of the integer. -/
def hashVType : Option VType → Nat
  | none => 0
  | some (VType.Text text) => hashLoop 5381 text
  | some (VType.Integer integer) => hashLoop 5381 (sprintfD integer)

/-! ## map.c -/

/-- The number of buckets, `#define TABLE_SIZE 1024`. -/
abbrev TABLE_SIZE : Nat := 1024

/-- A node of a bucket chain; the `next` pointer is the tail of the list. -/
structure Node where
  key : Option VType
  value : Option VType
  deriving DecidableEq, Repr

/-- The struct MapStruct: the bucket heads and the size counter. -/
structure Map where
  table : Fin TABLE_SIZE → List Node
  size : Nat

/-- The static function hash of map.c: `hashVType(key) % TABLE_SIZE`. -/
def hash (_this : Map) (key : Option VType) : Nat :=
  hashVType key % TABLE_SIZE

/-- The line `int index = hash(this, key) % TABLE_SIZE;` shared by mapSet,
mapGet and mapRemove. -/
def bucketIndex (this : Map) (key : Option VType) : Fin TABLE_SIZE :=
  ⟨hash this key % TABLE_SIZE, Nat.mod_lt _ (by decide)⟩

/-- Function makeMap of map.c: `NULL` when `malloc` fails; otherwise every
bucket is `NULL` and `size` is `len` converted from `int` to `size_t`. -/
def makeMap (len : Int) (mallocOk : Bool) : Option Map :=
  if mallocOk then
    some { table := fun _ => [], size := (len % (SIZE_MOD : Int)).toNat }
  else none

/-- Function mapSize of map.c. -/
def mapSize (this : Map) : Nat :=
  this.size

/-- The search loop of mapSet on one chain: the chain with the value of the
first node whose key equals `key` replaced, or `none` when the loop runs off
the end of the chain. -/
def setChain (key value : Option VType) : List Node → Option (List Node)
  | [] => none
  | node :: next =>
    if equalsVType node.key key then some ({ node with value := value } :: next)
    else (setChain key value next).map (fun rest => node :: rest)

/-- Function mapSet of map.c. When the search loop finds the key the value is
replaced; otherwise a node is allocated and, when the allocation succeeds,
linked in as the new head of the bucket. The size field is not written. -/
def mapSet (this : Map) (key value : Option VType) (mallocOk : Bool) : Map :=
  match setChain key value (this.table (bucketIndex this key)) with
  | some chain =>
    { this with table := Function.update this.table (bucketIndex this key) chain }
  | none =>
    if mallocOk then
      { this with
        table := Function.update this.table (bucketIndex this key)
          ({ key := key, value := value } :: this.table (bucketIndex this key)) }
    else this

/-- The search loop of mapGet on one chain: the value of the first node whose
key equals `key`, or `NULL`. -/
def getChain (key : Option VType) : List Node → Option VType
  | [] => none
  | node :: next =>
    if equalsVType node.key key then node.value else getChain key next

/-- Function mapGet of map.c. -/
def mapGet (this : Map) (key : Option VType) : Option VType :=
  getChain key (this.table (bucketIndex this key))

/-- The search loop of mapRemove on one chain: the chain with the first node
whose key equals `key` unlinked, or `none` when no node matches. -/
def removeChain (key : Option VType) : List Node → Option (List Node)
  | [] => none
  | node :: next =>
    if equalsVType node.key key then some next
    else (removeChain key next).map (fun rest => node :: rest)

/-- Function mapRemove of map.c: the returned flag and the map afterwards. On a
hit the node is unlinked and `this->size--` is performed on a `size_t`. -/
def mapRemove (this : Map) (key : Option VType) : Bool × Map :=
  match removeChain key (this.table (bucketIndex this key)) with
  | some chain =>
    (true,
      { table := Function.update this.table (bucketIndex this key) chain,
        size := (this.size + SIZE_MOD - 1) % SIZE_MOD })
  | none => (false, this)

/-- No node of the chain has a key equal to `key`. -/
def absentIn (key : Option VType) (chain : List Node) : Prop :=
  ∀ node ∈ chain, equalsVType node.key key = false

/-- No two nodes of the chain have equal keys. -/
def distinctKeys (chain : List Node) : Prop :=
  chain.Pairwise (fun a b => equalsVType a.key b.key = false)

/-- The total number of nodes in all bucket chains. -/
def entryCount (this : Map) : Nat :=
  ∑ i : Fin TABLE_SIZE, (this.table i).length

/-- A key equal to `key` is stored somewhere in the map. -/
def holdsKey (this : Map) (key : Option VType) : Prop :=
  ∃ i : Fin TABLE_SIZE, ∃ node ∈ this.table i, equalsVType node.key key = true

/-- The map states a client can reach: a successful makeMap followed by any
calls of mapSet and mapRemove (with any pointers, and any allocation
outcome inside mapSet). -/
inductive Reachable : Map → Prop where
  | make (len : Int) (m : Map) (hlo : -2147483648 ≤ len) (hhi : len ≤ 2147483647)
      (h : makeMap len true = some m) : Reachable m
  | set (m : Map) (key value : Option VType) (mallocOk : Bool)
      (h : Reachable m) : Reachable (mapSet m key value mallocOk)
  | remove (m : Map) (key : Option VType)
      (h : Reachable m) : Reachable (mapRemove m key).2

/-! ## Values used in the concrete scenarios -/

/-- The text `a`. -/
def textA : VType := VType.Text [97]

/-- The text `b`. -/
def textB : VType := VType.Text [98]

/-- The text `missing`. -/
def textMissing : VType := VType.Text [109, 105, 115, 115, 105, 110, 103]

/-- The text `key1` of mapTest.c. -/
def textKey1 : VType := VType.Text [107, 101, 121, 49]

/-- The map state right after a successful `makeMap(len)`. -/
def freshMap (len : Int) : Map :=
  { table := fun _ => [], size := (len % (SIZE_MOD : Int)).toNat }

/-- The scenario makeMap(len); mapSet(a, 1). -/
def oneKeyMap (len : Int) : Map :=
  mapSet (freshMap len) (some textA) (some (VType.Integer 1)) true

/-- The scenario makeMap(1); mapSet(a, 1); mapSet(b, 2); mapRemove(a). -/
def afterFirstRemove : Map :=
  (mapRemove (mapSet (oneKeyMap 1) (some textB) (some (VType.Integer 2)) true) (some textA)).2

/-! ## text.c -/

/-- The struct Text of text.c: the character buffer `data` (without its
terminating NUL) and the `length` field. The `parent` field is never written
by parseText and is left out. -/
structure Text where
  data : List Int
  length : Nat
  deriving DecidableEq, Repr

/-- The scanning loop of parseText,
`while (init[i] != 0 && init[i] != TAB && init[i] != NEWLINE) i++;`,
as the final value of `i` counted from the current position. The end of the
list is the terminating NUL; 9 is the tab and 10 the newline. -/
def scanText : List Int → Nat
  | [] => 0
  | c :: rest => if c = 9 ∨ c = 10 then 0 else scanText rest + 1

/-- Function parseText of text.c with a non-NULL `n`: `NULL` when one of the
two allocations fails; otherwise the Text holding the first `i` characters of
`init`, paired with the value `i` stored through `n`. The counter `i` is an
`int`, which does not overflow on inputs shorter than 2^31 characters. -/
def parseText (init : List Int) (mallocThis mallocData : Bool) : Option (Text × Nat) :=
  if mallocThis then
    if mallocData then
      some ({ data := init.take (scanText init), length := scanText init }, scanText init)
    else none
  else none

/-- Function textLength of text.c. -/
def textLength (this : Text) : Nat :=
  this.length

/-! ## Reference definitions in the words of the specification -/

/-- The djb2 hash as the specification words it: start from 5381 and, for each
byte `c` taken as an unsigned value, replace `h` by `(h * 33 + c) mod 2^32`. -/
def djb2Spec (s : List Nat) : Nat :=
  s.foldl (fun h c => (h * 33 + c) % 2 ^ 32) 5381

/-- The value of a plain `char` object holding the byte `b`, promoted to `int`.
Whether plain `char` is signed is fixed by the C implementation, hence the
parameter: where it is signed the bytes 128..255 are the values -128..-1. -/
def charOfByte (charIsSigned : Bool) (b : Nat) : Int :=
  if charIsSigned = true ∧ 128 ≤ b then (b : Int) - 256 else (b : Int)

/-- The C string holding the bytes `s`, as the list of its `char` values. -/
def cString (charIsSigned : Bool) (s : List Nat) : List Int :=
  s.map (charOfByte charIsSigned)

/-- The canonical decimal form of an integer as character codes: a minus sign
(45) for a negative number, then the decimal digits, most significant first,
with no leading zero; zero is the single digit 0. -/
def decimalSpec (i : Int) : List Nat :=
  (if i < 0 then [45] else []) ++
    (if i.natAbs = 0 then [48] else ((Nat.digits 10 i.natAbs).reverse.map (fun d => 48 + d)))

/-- The double quote character. -/
abbrev QUOTE : Int := 34

/-- The input of parseText made of a double quote, the characters `s`, and a
closing double quote. -/
def quoted (s : List Int) : List Int :=
  QUOTE :: (s ++ [QUOTE])

/-- The text `az`. -/
def textAz : VType := VType.Text [97, 122]

/-- The text `bY`, which has the same djb2 hash as `az`. -/
def textBY : VType := VType.Text [98, 89]

/-- The scenario makeMap(3); mapSet(az, 1); mapSet(bY, 2). -/
def collisionMap : Map :=
  mapSet (mapSet (freshMap 3) (some textAz) (some (VType.Integer 1)) true)
    (some textBY) (some (VType.Integer 2)) true

/-! ## text.c, continued -/

/-- Function textEquals of text.c: different lengths give false, otherwise
`strcmp(..) == 0` on the two buffers. The first test of the source, pointer
identity, is covered: one object has one length and one buffer. -/
def textEquals (this other : Text) : Bool :=
  if this.length ≠ other.length then false else decide (this.data = other.data)

/-! ## The C library conversions used by integer.c and driver.c -/

/-- The classification `isspace` of the C locale: space, tab, newline,
vertical tab, form feed, carriage return. -/
def isspace (c : Int) : Bool :=
  decide (c = 32) || (decide (9 ≤ c) && decide (c ≤ 13))

/-- The classification `isdigit`. -/
def isdigit (c : Int) : Bool :=
  decide (48 ≤ c) && decide (c ≤ 57)

/-- The number written by a sequence of decimal digit characters, accumulated
from the left as the conversion does. -/
def digitsValue (ds : List Int) : Nat :=
  ds.foldl (fun acc c => 10 * acc + (c - 48).toNat) 0

/-- The conversion `%d` of sscanf on the input `s`: white space is skipped, then
an optional sign and a non-empty run of decimal digits is converted. The result
is the number and the unread rest of the input, or `none` when nothing
matches. A number outside the range of `int` is undefined behaviour in C; here
the number is kept exact. -/
def scanInt (s : List Int) : Option (Int × List Int) :=
  match s.dropWhile isspace with
  | [] => none
  | c :: r =>
    if c = 45 then
      if r.takeWhile isdigit = [] then none
      else some (-(digitsValue (r.takeWhile isdigit) : Int), r.dropWhile isdigit)
    else if c = 43 then
      if r.takeWhile isdigit = [] then none
      else some ((digitsValue (r.takeWhile isdigit) : Int), r.dropWhile isdigit)
    else
      if (c :: r).takeWhile isdigit = [] then none
      else some ((digitsValue ((c :: r).takeWhile isdigit) : Int), (c :: r).dropWhile isdigit)

/-! ## integer.c -/

/-- The struct Integer of integer.h, reduced to its data field `val`; the four
method pointers are the same static functions for every Integer. -/
structure Integer where
  val : Int
  deriving DecidableEq, Repr

/-- Function parseInteger of integer.c with a non-NULL `n`:
`sscanf(init, "%d%n", &val, &len)` must convert one item, otherwise the result
is `NULL`; on success the Integer holding `val`, paired with the count `len` of
characters read, which is stored through `n`. The `malloc` result is not
tested by the source and is taken to succeed. -/
def parseInteger (init : List Int) : Option (Integer × Nat) :=
  match scanInt init with
  | none => none
  | some (val, rest) => some ({ val := val }, init.length - rest.length)

/-- The static function print of integer.c, `printf("%d", this->val)`, as the
characters it writes. -/
def Integer.print (this : Integer) : List Int :=
  sprintfD this.val

/-! ## Reference definitions in the words of the specification, continued -/

/-- The Jenkins one-at-a-time hash of a byte sequence, in 32-bit unsigned
arithmetic, which textTest.c expects of a Text. -/
def jenkinsSpec (s : List Nat) : Nat :=
  let mix := s.foldl (fun h c =>
    let h1 := (h + c) % 2 ^ 32
    let h2 := (h1 + h1 * 2 ^ 10) % 2 ^ 32
    Nat.xor h2 (h2 / 2 ^ 6)) 0
  let a := (mix + mix * 2 ^ 3) % 2 ^ 32
  let b := Nat.xor a (a / 2 ^ 11)
  (b + b * 2 ^ 15) % 2 ^ 32

/-- The characters of `ABCDEFGHIJKLMNOPQRSTUVWXYZ`. -/
def alphabet : List Nat :=
  [65, 66, 67, 68, 69, 70, 71, 72, 73, 74, 75, 76, 77, 78, 79, 80, 81, 82, 83, 84, 85, 86,
    87, 88, 89, 90]

/-- The characters of `The quick brown fox jumps over the lazy dog`. -/
def quickFox : List Nat :=
  [84, 104, 101, 32, 113, 117, 105, 99, 107, 32, 98, 114, 111, 119, 110, 32, 102, 111, 120,
    32, 106, 117, 109, 112, 115, 32, 111, 118, 101, 114, 32, 116, 104, 101, 32, 108, 97, 122,
    121, 32, 100, 111, 103]

/-! ## map.c with the heap objects named: which objects mapSet frees -/

/-- A VType object on the heap: its address and its content. -/
structure Obj where
  addr : Nat
  val : VType
  deriving DecidableEq, Repr

/-- A chain node whose key and value pointers are followed by address. -/
structure OwnedNode where
  key : Obj
  value : Obj
  deriving DecidableEq, Repr

/-- The search loop of mapSet on one chain, as setChain, together with the
addresses passed to freeVType: on the first node whose key equals `key` the
old value is freed and `value` is stored; `none` when no node matches. -/
def setChainFreed (key value : Obj) : List OwnedNode → Option (List OwnedNode × List Nat)
  | [] => none
  | node :: next =>
    if equalsVType (some node.key.val) (some key.val) then
      some ({ node with value := value } :: next, [node.value.addr])
    else (setChainFreed key value next).map (fun r => (node :: r.1, r.2))

/-- The effect of mapSet on the chain of its bucket when the node allocation
succeeds: the new chain and the addresses passed to freeVType. -/
def mapSetOwned (key value : Obj) (chain : List OwnedNode) : List OwnedNode × List Nat :=
  match setChainFreed key value chain with
  | some r => r
  | none => ({ key := key, value := value } :: chain, [])

/-- The addresses of the objects a chain points to. -/
def ownedAddrs (chain : List OwnedNode) : List Nat :=
  chain.flatMap (fun node => [node.key.addr, node.value.addr])

/-- The chain with the addresses forgotten. -/
def eraseAddrs (chain : List OwnedNode) : List Node :=
  chain.map (fun node => { key := some node.key.val, value := some node.value.val })

/-! ## driver.c -/

namespace Driver

/-- The number of slots, `#define TABLE_SIZE 100`. -/
abbrev TABLE_SIZE : Nat := 100

/-- The struct Entry of driver.c. -/
structure Entry where
  key : Int
  value : List Int
  deriving DecidableEq, Repr

/-- The global array `Entry *table[TABLE_SIZE]`, by slot index; `none` is a
`NULL` slot. Only the indices below TABLE_SIZE belong to the array. -/
abbrev Table := Nat → Option Entry

/-- The table at program start: static storage, every slot `NULL`. -/
def emptyTable : Table := fun _ => none

/-- Function hash of driver.c: `key % TABLE_SIZE` on `int`, the remainder of the
division truncated toward zero. -/
def hash (key : Int) : Int :=
  Int.tmod key TABLE_SIZE

/-- The probing loop of set from the slot `index`. After TABLE_SIZE probes that
found neither `NULL` nor the key the loop repeats itself forever: `none`. -/
def setFrom : Nat → Table → Nat → Int → List Int → Option Table
  | 0, _, _, _, _ => none
  | fuel + 1, table, index, key, value =>
    match table index with
    | none => some (Function.update table index (some { key := key, value := value }))
    | some entry =>
      if entry.key = key then
        some (Function.update table index (some { entry with value := value }))
      else setFrom fuel table ((index + 1) % TABLE_SIZE) key value

/-- Function set of driver.c. `none` stands for no defined result: an index
outside the array (negative hash) or a probing loop that never ends. -/
def set (table : Table) (key : Int) (value : List Int) : Option Table :=
  if hash key < 0 then none else setFrom TABLE_SIZE table (hash key).toNat key value

/-- The probing loop of get from the slot `index`. -/
def getFrom : Nat → Table → Nat → Int → Option (Option (List Int))
  | 0, _, _, _ => none
  | fuel + 1, table, index, key =>
    match table index with
    | none => some none
    | some entry =>
      if entry.key = key then some (some entry.value)
      else getFrom fuel table ((index + 1) % TABLE_SIZE) key

/-- Function get of driver.c: `some none` is the `NULL` result, `none` no
defined result (see set). -/
def get (table : Table) (key : Int) : Option (Option (List Int)) :=
  if hash key < 0 then none else getFrom TABLE_SIZE table (hash key).toNat key

/-- The probing loop of remove_entry from the slot `index`. -/
def removeFrom : Nat → Table → Nat → Int → Option Table
  | 0, _, _, _ => none
  | fuel + 1, table, index, key =>
    match table index with
    | none => some table
    | some entry =>
      if entry.key = key then some (Function.update table index none)
      else removeFrom fuel table ((index + 1) % TABLE_SIZE) key

/-- Function remove_entry of driver.c. -/
def remove_entry (table : Table) (key : Int) : Option Table :=
  if hash key < 0 then none else removeFrom TABLE_SIZE table (hash key).toNat key

/-- Function size of driver.c: the number of slots that are not `NULL`. -/
def size (table : Table) : Nat :=
  ((List.range TABLE_SIZE).filter (fun i => (table i).isSome)).length

/-- A string constant of the source as the list of its characters. -/
def str (s : String) : List Int :=
  s.data.map (fun c => (c.toNat : Int))

/-- The call `sscanf(input, "%19s", cmd)`: white space is skipped and up to 19
characters that are not white space are stored; `none` when the call does not
return 1. -/
def scanCmd (input : List Int) : Option (List Int) :=
  if (input.dropWhile isspace).takeWhile (fun c => !isspace c) = [] then none
  else some (((input.dropWhile isspace).takeWhile (fun c => !isspace c)).take 19)

/-- The directive `%*s` of the two longer formats: the unread input after the
first word, `none` when there is no word. -/
def skipWord (input : List Int) : Option (List Int) :=
  if (input.dropWhile isspace).takeWhile (fun c => !isspace c) = [] then none
  else some ((input.dropWhile isspace).dropWhile (fun c => !isspace c))

/-- The call `sscanf(input, "%*s %d", &key)`: the key when the call returns 1,
`none` otherwise. -/
def scanKey (input : List Int) : Option Int :=
  match skipWord input with
  | none => none
  | some rest => (scanInt rest).map Prod.fst

/-- The call `sscanf(input, "%*s %d %d", &key, &value)`: key and value when the
call returns 2, `none` otherwise. -/
def scanKeyValue (input : List Int) : Option (Int × Int) :=
  match skipWord input with
  | none => none
  | some rest =>
    match scanInt rest with
    | none => none
    | some (key, rest2) =>
      match scanInt rest2 with
      | none => none
      | some (value, _) => some (key, value)

/-- The body of the loop of main after a successful fgets: the characters
printed, the table afterwards, and whether the loop is left by `break`.
`none` when a table function has no defined result. -/
def mainBody (table : Table) (input : List Int) : Option (List Int × Table × Bool) :=
  match scanCmd input with
  | none => some (str "Invalid command.\n", table, false)
  | some cmd =>
    if cmd = str "set" then
      match scanKeyValue input with
      | none => some (str "Invalid \x27set\x27 command format.\n", table, false)
      | some (key, _) =>
        match set table key (input.drop (cmd.length + 4)) with
        | none => none
        | some table2 => some ([], table2, false)
    else if cmd = str "get" then
      match scanKey input with
      | none => some (str "Invalid \x27get\x27 command format.\n", table, false)
      | some key =>
        match get table key with
        | none => none
        | some (some result) => some (result ++ str "\n", table, false)
        | some none => some (str "Key not found.\n", table, false)
    else if cmd = str "remove" then
      match scanKey input with
      | none => some (str "Invalid \x27remove\x27 command format.\n", table, false)
      | some key =>
        match remove_entry table key with
        | none => none
        | some table2 => some ([], table2, false)
    else if cmd = str "size" then
      some (sprintfD (size table) ++ str "\n\n", table, false)
    else if cmd = str "quit" then some ([], table, true)
    else some (str "Unknown command.\n", table, false)

/-- What is known of a run of main: the characters printed so far and the exit
status once main has returned. -/
structure Run where
  output : List Int
  status : Option Int
  deriving DecidableEq, Repr

/-- Function main of driver.c for at most `fuel` passes of its loop. The
standard input is the list of the strings the successive fgets calls deliver
(each at most 99 characters); when it is used up fgets returns `NULL`, at end
of input as after a read error. `none` when a table function has no defined
result. -/
def main : Nat → Table → List (List Int) → Option Run
  | 0, _, _ => some { output := [], status := none }
  | fuel + 1, table, [] =>
    (main fuel table []).map (fun run =>
      { run with output := str "cmd> " ++ str "Error reading input.\n" ++ run.output })
  | fuel + 1, table, input :: stdin =>
    match mainBody table input with
    | none => none
    | some (out, table2, leave) =>
      if leave then some { output := str "cmd> " ++ out, status := some 0 }
      else
        (main fuel table2 stdin).map (fun run =>
          { run with output := str "cmd> " ++ out ++ run.output })

end Driver

/-! ## driver.c: the tables of the probing scenarios -/

/-- The table after `set(0, "a")` and `set(100, "b")` from program start: both
keys have the hash 0, so 0 is in slot 0 and 100 in slot 1. -/
def Driver.twoKeys : Option Driver.Table :=
  (set emptyTable 0 [97]).bind (fun t => set t 100 [98])

/-- The table of twoKeys after `remove_entry(0)`. -/
def Driver.afterRemove : Option Driver.Table :=
  twoKeys.bind (fun t => remove_entry t 0)

/-- The table of afterRemove after `set(100, "c")`. -/
def Driver.afterSetAgain : Option Driver.Table :=
  afterRemove.bind (fun t => set t 100 [99])

/-! ## input.c -/

/-- The largest value of an `int`. -/
abbrev INT_MAX : Nat := 2 ^ 31 - 1

/-- What a call of readLine leaves behind: the returned string (`none` is
`NULL`) as the characters stored in front of the terminator that readLine
writes, the bytes of the stream that are still unread, and whether every store
into `line` was at an index below the capacity the block had at that moment. -/
structure LineRead where
  line : Option (List Int)
  rest : List Nat
  inBounds : Bool
  deriving DecidableEq, Repr

/-- The loop `while ((ch = fgetc(fp)) != EOF)` of readLine and the code after
it. The first argument is the bytes fgetc has still to deliver, its end being
`EOF`; `capacity` and `line` are the variables of the source, `size` being the
length of `line`; `ok` tells whether the stores so far were inside the block.
The result is `none` where `capacity *= 2` leaves the range of `int`, which C
leaves undefined. -/
def readLoop (charIsSigned reallocOk : Bool) :
    List Nat → Nat → List Int → Bool → Option LineRead
  | [], capacity, line, ok =>
    if line.length = 0 then some { line := none, rest := [], inBounds := ok }
    else some { line := some line, rest := [],
                inBounds := ok && decide (line.length < capacity) }
  | ch :: stream, capacity, line, ok =>
    if ch = 10 then
      some { line := some line, rest := stream,
             inBounds := ok && decide (line.length < capacity) }
    else if capacity ≤ line.length + 1 then
      if INT_MAX < capacity * 2 then none
      else if reallocOk then
        readLoop charIsSigned reallocOk stream (capacity * 2)
          (line ++ [charOfByte charIsSigned ch]) (ok && decide (line.length < capacity))
      else some { line := none, rest := stream,
                  inBounds := ok && decide (line.length < capacity) }
    else
      readLoop charIsSigned reallocOk stream capacity
        (line ++ [charOfByte charIsSigned ch]) (ok && decide (line.length < capacity))

/-- Function readLine of input.c. `fp` is `none` for a `NULL` stream, otherwise
the bytes still to be read; `mallocOk` and `reallocOk` say whether the
allocations succeed. -/
def readLine (fp : Option (List Nat)) (charIsSigned mallocOk reallocOk : Bool) :
    Option LineRead :=
  match fp with
  | none => some { line := none, rest := [], inBounds := true }
  | some stream =>
    if mallocOk then readLoop charIsSigned reallocOk stream 16 [] true
    else some { line := none, rest := stream, inBounds := true }

/-! ## Facts about equalsVType -/

theorem equalsVType_iff (a b : Option VType) :
    equalsVType a b = true ↔ ∃ v, a = some v ∧ b = some v := by
  cases a with
  | none => simp [equalsVType]
  | some x =>
    cases b with
    | none => cases x <;> simp [equalsVType]
    | some y => cases x <;> cases y <;> simp [equalsVType, eq_comm]

theorem equalsVType_self (v : VType) : equalsVType (some v) (some v) = true :=
  (equalsVType_iff _ _).2 ⟨v, rfl, rfl⟩

theorem equalsVType_comm (a b : Option VType) : equalsVType a b = equalsVType b a := by
  rw [Bool.eq_iff_iff, equalsVType_iff, equalsVType_iff]
  constructor <;> rintro ⟨v, h1, h2⟩ <;> exact ⟨v, h2, h1⟩

theorem equalsVType_of_common_right {a b c : Option VType}
    (hab : equalsVType a b = true) (hcb : equalsVType c b = true) :
    equalsVType c a = true := by
  obtain ⟨v, h1, h2⟩ := (equalsVType_iff _ _).1 hab
  obtain ⟨w, h3, h4⟩ := (equalsVType_iff _ _).1 hcb
  subst h1 h3
  rw [h2] at h4
  cases h4
  exact equalsVType_self v

/-! ## Facts about single chains -/

theorem setChain_eq_none_iff (key value : Option VType) (chain : List Node) :
    setChain key value chain = none ↔ absentIn key chain := by
  induction chain with
  | nil => simp [setChain, absentIn]
  | cons node next ih =>
    unfold absentIn at ih ⊢
    by_cases h : equalsVType node.key key = true
    · simp [setChain, h]
    · simp [setChain, h, ih]

theorem removeChain_eq_none_iff (key : Option VType) (chain : List Node) :
    removeChain key chain = none ↔ absentIn key chain := by
  induction chain with
  | nil => simp [removeChain, absentIn]
  | cons node next ih =>
    unfold absentIn at ih ⊢
    by_cases h : equalsVType node.key key = true
    · simp [removeChain, h]
    · simp [removeChain, h, ih]

theorem getChain_of_absentIn (key : Option VType) (chain : List Node)
    (h : absentIn key chain) : getChain key chain = none := by
  induction chain with
  | nil => rfl
  | cons node next ih =>
    have h1 : equalsVType node.key key = false := h node (List.mem_cons_self _ _)
    have h2 : absentIn key next := fun n hn => h n (List.mem_cons_of_mem _ hn)
    simp [getChain, h1, ih h2]

theorem getChain_of_setChain (key value : Option VType) (chain chain2 : List Node)
    (h : setChain key value chain = some chain2) : getChain key chain2 = value := by
  induction chain generalizing chain2 with
  | nil => simp [setChain] at h
  | cons node next ih =>
    by_cases hk : equalsVType node.key key = true
    · simp [setChain, hk] at h
      subst h
      simp [getChain, hk]
    · simp [setChain, hk] at h
      obtain ⟨rest, hrest, rfl⟩ := h
      simp [getChain, hk, ih rest hrest]

/-! ## Facts about whole maps -/

theorem mapSize_mapSet (m : Map) (key value : Option VType) (mallocOk : Bool) :
    mapSize (mapSet m key value mallocOk) = mapSize m := by
  unfold mapSet
  split
  · rfl
  · split <;> rfl

theorem table_mapSet_self (m : Map) (key value : Option VType) (mallocOk : Bool) :
    (mapSet m key value mallocOk).table (bucketIndex m key) =
      match setChain key value (m.table (bucketIndex m key)) with
      | some chain => chain
      | none =>
        if mallocOk then { key := key, value := value } :: m.table (bucketIndex m key)
        else m.table (bucketIndex m key) := by
  unfold mapSet
  split
  · simp_all
  · cases mallocOk <;> simp_all

theorem table_mapSet_other (m : Map) (key value : Option VType) (mallocOk : Bool)
    (i : Fin TABLE_SIZE) (h : i ≠ bucketIndex m key) :
    (mapSet m key value mallocOk).table i = m.table i := by
  unfold mapSet
  split
  · simp [Function.update_noteq h]
  · split
    · simp [Function.update_noteq h]
    · rfl

theorem mapGet_mapSet_self (m : Map) (k : VType) (value : Option VType) :
    mapGet (mapSet m (some k) value true) (some k) = value := by
  have hidx : bucketIndex (mapSet m (some k) value true) (some k) = bucketIndex m (some k) := rfl
  unfold mapGet
  rw [hidx, table_mapSet_self]
  cases hs : setChain (some k) value (m.table (bucketIndex m (some k))) with
  | some chain => exact getChain_of_setChain _ _ _ _ hs
  | none => simp [getChain, equalsVType_self]

theorem absentIn_of_not_holdsKey (m : Map) (key : Option VType) (h : ¬ holdsKey m key)
    (i : Fin TABLE_SIZE) : absentIn key (m.table i) := by
  intro node hnode
  by_contra hne
  exact h ⟨i, node, hnode, by simpa using hne⟩

theorem not_holdsKey_freshMap (len : Int) (key : Option VType) :
    ¬ holdsKey (freshMap len) key := by
  rintro ⟨i, node, hnode, _⟩
  simp [freshMap] at hnode


theorem setChain_keys (key value : Option VType) (chain chain2 : List Node)
    (h : setChain key value chain = some chain2) :
    chain2.map Node.key = chain.map Node.key := by
  induction chain generalizing chain2 with
  | nil => simp [setChain] at h
  | cons node next ih =>
    by_cases hk : equalsVType node.key key = true
    · simp [setChain, hk] at h
      subst h
      simp
    · simp [setChain, hk] at h
      obtain ⟨rest, hrest, rfl⟩ := h
      simp [ih rest hrest]

theorem removeChain_sublist (key : Option VType) (chain chain2 : List Node)
    (h : removeChain key chain = some chain2) : chain2.Sublist chain := by
  induction chain generalizing chain2 with
  | nil => simp [removeChain] at h
  | cons node next ih =>
    by_cases hk : equalsVType node.key key = true
    · simp [removeChain, hk] at h
      subst h
      exact List.sublist_cons_self _ _
    · simp [removeChain, hk] at h
      obtain ⟨rest, hrest, rfl⟩ := h
      exact (ih rest hrest).cons₂ _

theorem distinctKeys_iff (chain : List Node) :
    distinctKeys chain ↔
      (chain.map Node.key).Pairwise (fun a b => equalsVType a b = false) := by
  unfold distinctKeys
  rw [List.pairwise_map]

theorem distinctKeys_setChain (key value : Option VType) (chain chain2 : List Node)
    (h : setChain key value chain = some chain2) (hd : distinctKeys chain) :
    distinctKeys chain2 := by
  rw [distinctKeys_iff] at hd ⊢
  rw [setChain_keys _ _ _ _ h]
  exact hd

theorem distinctKeys_cons (key value : Option VType) (chain : List Node)
    (h : absentIn key chain) (hd : distinctKeys chain) :
    distinctKeys ({ key := key, value := value } :: chain) := by
  unfold distinctKeys
  rw [List.pairwise_cons]
  refine ⟨fun node hnode => ?_, hd⟩
  rw [equalsVType_comm]
  exact h node hnode

theorem distinctKeys_removeChain (key : Option VType) (chain chain2 : List Node)
    (h : removeChain key chain = some chain2) (hd : distinctKeys chain) :
    distinctKeys chain2 :=
  List.Pairwise.sublist (removeChain_sublist _ _ _ h) hd

theorem absentIn_removeChain (key : Option VType) (chain chain2 : List Node)
    (h : removeChain key chain = some chain2) (hd : distinctKeys chain) :
    absentIn key chain2 := by
  induction chain generalizing chain2 with
  | nil => simp [removeChain] at h
  | cons node next ih =>
    unfold distinctKeys at hd
    rw [List.pairwise_cons] at hd
    by_cases hk : equalsVType node.key key = true
    · simp [removeChain, hk] at h
      subst h
      intro n hn
      by_contra hne
      have hn2 : equalsVType n.key key = true := by simpa using hne
      have h3 : equalsVType n.key node.key = true := equalsVType_of_common_right hk hn2
      rw [equalsVType_comm] at h3
      rw [hd.1 n hn] at h3
      exact Bool.false_ne_true h3
    · simp [removeChain, hk] at h
      obtain ⟨rest, hrest, rfl⟩ := h
      intro n hn
      rcases List.mem_cons.1 hn with rfl | hn
      · simpa using hk
      · exact ih rest hrest hd.2 n hn

theorem table_mapRemove_self (m : Map) (key : Option VType) :
    (mapRemove m key).2.table (bucketIndex m key) =
      match removeChain key (m.table (bucketIndex m key)) with
      | some chain => chain
      | none => m.table (bucketIndex m key) := by
  unfold mapRemove
  split <;> simp_all

theorem table_mapRemove_other (m : Map) (key : Option VType)
    (i : Fin TABLE_SIZE) (h : i ≠ bucketIndex m key) :
    (mapRemove m key).2.table i = m.table i := by
  unfold mapRemove
  split
  · simp [Function.update_noteq h]
  · rfl

/-- Every bucket chain of a reachable map has pairwise different keys. -/
theorem Reachable.distinctKeys {m : Map} (h : Reachable m) (i : Fin TABLE_SIZE) :
    Hashmap.distinctKeys (m.table i) := by
  induction h generalizing i with
  | make len m hlo hhi hm =>
    cases Option.some.inj hm
    exact List.Pairwise.nil
  | set m key value mallocOk _ ih =>
    by_cases hi : i = bucketIndex m key
    · subst hi
      rw [table_mapSet_self]
      cases hs : setChain key value (m.table (bucketIndex m key)) with
      | some chain => exact distinctKeys_setChain _ _ _ _ hs (ih _)
      | none =>
        cases mallocOk with
        | true => exact distinctKeys_cons _ _ _ ((setChain_eq_none_iff _ _ _).1 hs) (ih _)
        | false => exact ih _
    · rw [table_mapSet_other _ _ _ _ _ hi]
      exact ih _
  | remove m key _ ih =>
    by_cases hi : i = bucketIndex m key
    · subst hi
      rw [table_mapRemove_self]
      cases hs : removeChain key (m.table (bucketIndex m key)) with
      | some chain => exact distinctKeys_removeChain _ _ _ hs (ih _)
      | none => exact ih _
    · rw [table_mapRemove_other _ _ _ hi]
      exact ih _

theorem absentIn_after_mapRemove (m : Map) (key : Option VType) (h : Reachable m) :
    absentIn key ((mapRemove m key).2.table (bucketIndex m key)) := by
  rw [table_mapRemove_self]
  cases hs : removeChain key (m.table (bucketIndex m key)) with
  | some chain => exact absentIn_removeChain _ _ _ hs (h.distinctKeys _)
  | none => exact (removeChain_eq_none_iff _ _).1 hs

theorem entryCount_freshMap (len : Int) : entryCount (freshMap len) = 0 := by
  simp [entryCount, freshMap]

theorem entryCount_mapSet_absent (m : Map) (key value : Option VType)
    (h : absentIn key (m.table (bucketIndex m key))) :
    entryCount (mapSet m key value true) = entryCount m + 1 := by
  have hs := (setChain_eq_none_iff key value _).2 h
  have htab : ∀ i, ((mapSet m key value true).table i).length =
      Function.update (fun j => (m.table j).length) (bucketIndex m key)
        ((m.table (bucketIndex m key)).length + 1) i := by
    intro i
    by_cases hi : i = bucketIndex m key
    · subst hi
      rw [table_mapSet_self, hs]
      simp
    · rw [table_mapSet_other _ _ _ _ _ hi, Function.update_noteq hi]
  unfold entryCount
  simp only [htab]
  rw [Finset.sum_update_of_mem (Finset.mem_univ _)]
  rw [← Finset.sum_erase_add Finset.univ (fun j => (m.table j).length)
    (Finset.mem_univ (bucketIndex m key))]
  rw [Finset.sdiff_singleton_eq_erase]
  omega

theorem holdsKey_of_mapSet (m : Map) (key value k : Option VType) (mallocOk : Bool)
    (h : holdsKey (mapSet m key value mallocOk) k) :
    holdsKey m k ∨ equalsVType key k = true := by
  obtain ⟨i, node, hnode, heq⟩ := h
  by_cases hi : i = bucketIndex m key
  · subst hi
    rw [table_mapSet_self] at hnode
    cases hs : setChain key value (m.table (bucketIndex m key)) with
    | some chain =>
      rw [hs] at hnode
      have hk : node.key ∈ chain.map Node.key := List.mem_map_of_mem _ hnode
      rw [setChain_keys _ _ _ _ hs] at hk
      obtain ⟨old, hold, hkey⟩ := List.mem_map.1 hk
      exact Or.inl ⟨_, old, hold, by rw [hkey]; exact heq⟩
    | none =>
      rw [hs] at hnode
      cases mallocOk with
      | true =>
        rcases List.mem_cons.1 hnode with rfl | hold
        · exact Or.inr heq
        · exact Or.inl ⟨_, node, hold, heq⟩
      | false => exact Or.inl ⟨_, node, hnode, heq⟩
  · rw [table_mapSet_other _ _ _ _ _ hi] at hnode
    exact Or.inl ⟨i, node, hnode, heq⟩

theorem holdsKey_mapSet_self (m : Map) (k : VType) (value : Option VType) :
    holdsKey (mapSet m (some k) value true) (some k) := by
  refine ⟨bucketIndex m (some k), ?_⟩
  rw [table_mapSet_self]
  cases hs : setChain (some k) value (m.table (bucketIndex m (some k))) with
  | some chain =>
    have hpres : ¬ absentIn (some k) (m.table (bucketIndex m (some k))) := by
      intro habs
      rw [(setChain_eq_none_iff _ value _).2 habs] at hs
      cases hs
    unfold absentIn at hpres
    push_neg at hpres
    obtain ⟨old, hold, hne⟩ := hpres
    have hk : old.key ∈ (m.table (bucketIndex m (some k))).map Node.key :=
      List.mem_map_of_mem _ hold
    rw [← setChain_keys _ _ _ _ hs] at hk
    obtain ⟨node, hnode, hkey⟩ := List.mem_map.1 hk
    exact ⟨node, hnode, by rw [hkey]; simpa using hne⟩
  | none => exact ⟨_, List.mem_cons_self _ _, equalsVType_self k⟩

/-- Every node of a reachable map sits in the bucket its key hashes to. -/
theorem Reachable.placement {m : Map} (h : Reachable m) (i : Fin TABLE_SIZE) :
    ∀ node ∈ m.table i, bucketIndex m node.key = i := by
  induction h generalizing i with
  | make len m hlo hhi hm =>
    cases Option.some.inj hm
    intro node hnode
    cases hnode
  | set m key value mallocOk _ ih =>
    intro node hnode
    have hsame : ∀ k, bucketIndex (mapSet m key value mallocOk) k = bucketIndex m k :=
      fun _ => rfl
    rw [hsame]
    by_cases hi : i = bucketIndex m key
    · subst hi
      rw [table_mapSet_self] at hnode
      cases hs : setChain key value (m.table (bucketIndex m key)) with
      | some chain =>
        rw [hs] at hnode
        have hk : node.key ∈ chain.map Node.key := List.mem_map_of_mem _ hnode
        rw [setChain_keys _ _ _ _ hs] at hk
        obtain ⟨old, hold, hkey⟩ := List.mem_map.1 hk
        rw [← hkey]
        exact ih _ old hold
      | none =>
        rw [hs] at hnode
        cases mallocOk with
        | true =>
          rcases List.mem_cons.1 hnode with rfl | hold
          · rfl
          · exact ih _ node hold
        | false => exact ih _ node hnode
    · rw [table_mapSet_other _ _ _ _ _ hi] at hnode
      exact ih _ node hnode
  | remove m key _ ih =>
    intro node hnode
    have hsame : ∀ k, bucketIndex (mapRemove m key).2 k = bucketIndex m k := fun _ => rfl
    rw [hsame]
    by_cases hi : i = bucketIndex m key
    · subst hi
      rw [table_mapRemove_self] at hnode
      cases hs : removeChain key (m.table (bucketIndex m key)) with
      | some chain =>
        rw [hs] at hnode
        exact ih _ node ((removeChain_sublist _ _ _ hs).subset hnode)
      | none =>
        rw [hs] at hnode
        exact ih _ node hnode
    · rw [table_mapRemove_other _ _ _ hi] at hnode
      exact ih _ node hnode

theorem mapRemove_fst (m : Map) (key : Option VType) :
    (mapRemove m key).1 = (removeChain key (m.table (bucketIndex m key))).isSome := by
  unfold mapRemove
  split <;> simp_all

/-- On a reachable map mapRemove reports a hit exactly when some stored key
equals the argument. -/
theorem mapRemove_true_iff_holdsKey (m : Map) (k : VType) (h : Reachable m) :
    (mapRemove m (some k)).1 = true ↔ holdsKey m (some k) := by
  rw [mapRemove_fst, Option.isSome_iff_ne_none, Ne, removeChain_eq_none_iff]
  constructor
  · intro hpres
    unfold absentIn at hpres
    push_neg at hpres
    obtain ⟨node, hnode, hne⟩ := hpres
    exact ⟨_, node, hnode, by simpa using hne⟩
  · rintro ⟨i, node, hnode, heq⟩ habs
    have hplace := h.placement i node hnode
    obtain ⟨v, hv, hk⟩ := (equalsVType_iff _ _).1 heq
    cases hk
    rw [hv] at hplace
    have hidx : bucketIndex m (some k) = i := hplace
    subst hidx
    rw [habs node hnode] at heq
    exact Bool.false_ne_true heq

/-- A successful mapRemove performs `size--` in `size_t` arithmetic: one less
when the size was positive, and 2^64 - 1 when it was 0. -/
theorem mapSize_mapRemove_hit (m : Map) (key : Option VType)
    (h : (mapRemove m key).1 = true) :
    mapSize (mapRemove m key).2 = (mapSize m + SIZE_MOD - 1) % SIZE_MOD := by
  cases hs : removeChain key (m.table (bucketIndex m key)) with
  | some chain => simp only [mapRemove, hs, mapSize]
  | none => simp [mapRemove, hs] at h

/-! ## Facts about hashVType -/

theorem hashLoop_natCast (s : List Nat) (h : Nat) :
    hashLoop h (s.map (fun (b : Nat) => (b : Int))) =
      s.foldl (fun h c => (h * 33 + c) % 2 ^ 32) h := by
  induction s generalizing h with
  | nil => rfl
  | cons b rest ih =>
    simp only [List.map_cons, hashLoop, List.foldl_cons]
    rw [ih]
    congr 1
    simp only [UINT_MOD]
    omega

theorem charOfByte_of_small (charIsSigned : Bool) (b : Nat)
    (h : charIsSigned = true → b ≤ 127) : charOfByte charIsSigned b = (b : Int) := by
  unfold charOfByte
  split
  · rename_i hc
    have := h hc.1
    omega
  · rfl

theorem cString_of_small (charIsSigned : Bool) (s : List Nat)
    (h : charIsSigned = true → ∀ b ∈ s, b ≤ 127) :
    cString charIsSigned s = s.map (fun (b : Nat) => (b : Int)) := by
  unfold cString
  apply List.map_congr_left
  intro b hb
  exact charOfByte_of_small charIsSigned b (fun hc => h hc b hb)

theorem decimalCore_eq (fuel n : Nat) (acc : List Int) (h : n < fuel) :
    decimalCore fuel n acc =
      (if n = 0 then [48] else ((Nat.digits 10 n).reverse.map (fun d => 48 + d))).map
        (fun (b : Nat) => (b : Int)) ++ acc := by
  induction fuel generalizing n acc with
  | zero => omega
  | succ fuel ih =>
    unfold decimalCore
    by_cases h10 : n / 10 = 0
    · have hlt : n < 10 := by omega
      rw [if_pos h10]
      by_cases h0 : n = 0
      · subst h0
        simp
      · rw [if_neg h0, Nat.digits_of_lt 10 n h0 hlt]
        have : n % 10 = n := Nat.mod_eq_of_lt hlt
        simp [this]
    · have hpos : 0 < n := by omega
      have hne : n ≠ 0 := by omega
      rw [if_neg h10, ih (n / 10) _ (by omega), if_neg h10, if_neg hne,
        Nat.digits_def' (by norm_num) hpos]
      simp

theorem sprintfD_eq_decimalSpec (i : Int) :
    sprintfD i = (decimalSpec i).map (fun (b : Nat) => (b : Int)) := by
  unfold sprintfD decimalSpec
  rw [decimalCore_eq _ _ _ (Nat.lt_succ_self _)]
  by_cases hneg : i < 0
  · simp [hneg]
  · simp [hneg]

theorem hashVType_eq_of_equalsVType (a b : Option VType)
    (h : equalsVType a b = true) : hashVType a = hashVType b := by
  obtain ⟨v, ha, hb⟩ := (equalsVType_iff a b).1 h
  rw [ha, hb]

/-! ## Lookups of one key are not affected by updates of another -/

theorem equalsVType_some_ne (k k2 : VType) (h : k ≠ k2) :
    equalsVType (some k) (some k2) = false := by
  by_contra hne
  have ht : equalsVType (some k) (some k2) = true := by simpa using hne
  obtain ⟨v, h1, h2⟩ := (equalsVType_iff _ _).1 ht
  cases h1
  cases h2
  exact h rfl

theorem equalsVType_other_of_eq (k k2 : VType) (h : k ≠ k2) (x : Option VType)
    (hx : equalsVType x (some k) = true) : equalsVType x (some k2) = false := by
  obtain ⟨v, h1, h2⟩ := (equalsVType_iff _ _).1 hx
  cases h2
  rw [h1]
  exact equalsVType_some_ne k k2 h

theorem getChain_setChain_other (key value k2 : Option VType) (chain chain2 : List Node)
    (h : setChain key value chain = some chain2)
    (hne : ∀ x, equalsVType x key = true → equalsVType x k2 = false) :
    getChain k2 chain2 = getChain k2 chain := by
  induction chain generalizing chain2 with
  | nil => simp [setChain] at h
  | cons node next ih =>
    by_cases hk : equalsVType node.key key = true
    · simp [setChain, hk] at h
      subst h
      simp [getChain, hne _ hk]
    · simp [setChain, hk] at h
      obtain ⟨rest, hrest, rfl⟩ := h
      simp [getChain, ih rest hrest]

theorem getChain_removeChain_other (key k2 : Option VType) (chain chain2 : List Node)
    (h : removeChain key chain = some chain2)
    (hne : ∀ x, equalsVType x key = true → equalsVType x k2 = false) :
    getChain k2 chain2 = getChain k2 chain := by
  induction chain generalizing chain2 with
  | nil => simp [removeChain] at h
  | cons node next ih =>
    by_cases hk : equalsVType node.key key = true
    · simp [removeChain, hk] at h
      subst h
      simp [getChain, hne _ hk]
    · simp [removeChain, hk] at h
      obtain ⟨rest, hrest, rfl⟩ := h
      simp [getChain, ih rest hrest]

/-- A mapSet of the key k leaves the result of mapGet for every other key. -/
theorem mapGet_mapSet_other (m : Map) (k k2 : VType) (value : Option VType)
    (mallocOk : Bool) (h : k ≠ k2) :
    mapGet (mapSet m (some k) value mallocOk) (some k2) = mapGet m (some k2) := by
  have hidx : bucketIndex (mapSet m (some k) value mallocOk) (some k2)
      = bucketIndex m (some k2) := rfl
  unfold mapGet
  rw [hidx]
  by_cases hi : bucketIndex m (some k2) = bucketIndex m (some k)
  · rw [hi, table_mapSet_self]
    cases hs : setChain (some k) value (m.table (bucketIndex m (some k))) with
    | some chain =>
      exact getChain_setChain_other _ _ _ _ _ hs (equalsVType_other_of_eq k k2 h)
    | none =>
      cases mallocOk with
      | true => simp [getChain, equalsVType_some_ne k k2 h]
      | false => rfl
  · rw [table_mapSet_other _ _ _ _ _ hi]

/-- A mapRemove of the key k leaves the result of mapGet for every other key. -/
theorem mapGet_mapRemove_other (m : Map) (k k2 : VType) (h : k ≠ k2) :
    mapGet (mapRemove m (some k)).2 (some k2) = mapGet m (some k2) := by
  have hidx : bucketIndex (mapRemove m (some k)).2 (some k2) = bucketIndex m (some k2) := rfl
  unfold mapGet
  rw [hidx]
  by_cases hi : bucketIndex m (some k2) = bucketIndex m (some k)
  · rw [hi, table_mapRemove_self]
    cases hs : removeChain (some k) (m.table (bucketIndex m (some k))) with
    | some chain =>
      exact getChain_removeChain_other _ _ _ _ hs (equalsVType_other_of_eq k k2 h)
    | none => rfl
  · rw [table_mapRemove_other _ _ _ hi]

/-! ## Facts about parseText -/

theorem scanText_of_clean (s : List Int) (ht : (9 : Int) ∉ s) (hn : (10 : Int) ∉ s) :
    scanText s = s.length := by
  induction s with
  | nil => rfl
  | cons c rest ih =>
    have hc9 : c ≠ 9 := fun hc => ht (hc ▸ List.mem_cons_self _ _)
    have hc10 : c ≠ 10 := fun hc => hn (hc ▸ List.mem_cons_self _ _)
    have ht2 : (9 : Int) ∉ rest := fun hm => ht (List.mem_cons_of_mem _ hm)
    have hn2 : (10 : Int) ∉ rest := fun hm => hn (List.mem_cons_of_mem _ hm)
    simp [scanText, hc9, hc10, ih ht2 hn2]

theorem scanText_quoted (s : List Int) (ht : (9 : Int) ∉ s) (hn : (10 : Int) ∉ s) :
    scanText (quoted s) = s.length + 2 := by
  have h := scanText_of_clean (quoted s)
    (by simp [quoted, QUOTE, ht]) (by simp [quoted, QUOTE, hn])
  rw [h]
  simp [quoted]

theorem parseText_quoted (s : List Int) (ht : (9 : Int) ∉ s) (hn : (10 : Int) ∉ s) :
    parseText (quoted s) true true =
      some ({ data := quoted s, length := s.length + 2 }, s.length + 2) := by
  have hlen : (quoted s).length = s.length + 2 := by simp [quoted]
  simp [parseText, scanText_quoted s ht hn, ← hlen]

/-! ## Facts about the conversion of integers -/

theorem isdigit_iff (c : Int) : isdigit c = true ↔ 48 ≤ c ∧ c ≤ 57 := by
  simp [isdigit]

theorem isspace_iff (c : Int) : isspace c = true ↔ c = 32 ∨ (9 ≤ c ∧ c ≤ 13) := by
  simp [isspace]

theorem not_isspace_of_isdigit (c : Int) (h : isdigit c = true) : isspace c = false := by
  rw [isdigit_iff] at h
  by_contra hs
  have hs2 : isspace c = true := by simpa using hs
  rw [isspace_iff] at hs2
  omega

theorem takeWhile_isdigit_append (ds rest : List Int) (hdig : ∀ c ∈ ds, isdigit c = true)
    (hrest : ∀ c, rest.head? = some c → isdigit c = false) :
    (ds ++ rest).takeWhile isdigit = ds := by
  induction ds with
  | nil =>
    cases rest with
    | nil => rfl
    | cons c r => simp [List.takeWhile, hrest c rfl]
  | cons d ds ih =>
    have hd : isdigit d = true := hdig d (List.mem_cons_self _ _)
    simp [List.takeWhile, hd, ih (fun c hc => hdig c (List.mem_cons_of_mem _ hc))]

theorem dropWhile_isdigit_append (ds rest : List Int) (hdig : ∀ c ∈ ds, isdigit c = true)
    (hrest : ∀ c, rest.head? = some c → isdigit c = false) :
    (ds ++ rest).dropWhile isdigit = rest := by
  induction ds with
  | nil =>
    cases rest with
    | nil => rfl
    | cons c r => simp [List.dropWhile, hrest c rfl]
  | cons d ds ih =>
    have hd : isdigit d = true := hdig d (List.mem_cons_self _ _)
    simp [List.dropWhile, hd, ih (fun c hc => hdig c (List.mem_cons_of_mem _ hc))]

theorem scanInt_cons (c : Int) (r : List Int) (h : isspace c = false) :
    scanInt (c :: r) =
      if c = 45 then
        if r.takeWhile isdigit = [] then none
        else some (-(digitsValue (r.takeWhile isdigit) : Int), r.dropWhile isdigit)
      else if c = 43 then
        if r.takeWhile isdigit = [] then none
        else some ((digitsValue (r.takeWhile isdigit) : Int), r.dropWhile isdigit)
      else
        if (c :: r).takeWhile isdigit = [] then none
        else some ((digitsValue ((c :: r).takeWhile isdigit) : Int),
          (c :: r).dropWhile isdigit) := by
  have hd : (c :: r).dropWhile isspace = c :: r := by simp [List.dropWhile, h]
  unfold scanInt
  rw [hd]

/-- The conversion on an input without leading white space: a sign (none, minus
or plus), a maximal non-empty run of digits, and a rest. -/
theorem scanInt_literal (sign ds rest : List Int)
    (hsign : sign = [] ∨ sign = [45] ∨ sign = [43]) (hne : ds ≠ [])
    (hdig : ∀ c ∈ ds, isdigit c = true)
    (hrest : ∀ c, rest.head? = some c → isdigit c = false) :
    scanInt (sign ++ (ds ++ rest)) =
      some (if sign = [45] then -(digitsValue ds : Int) else (digitsValue ds : Int), rest) := by
  have htake := takeWhile_isdigit_append ds rest hdig hrest
  have hdrop := dropWhile_isdigit_append ds rest hdig hrest
  rcases hsign with h | h | h
  · subst h
    cases ds with
    | nil => exact absurd rfl hne
    | cons d ds2 =>
      have hd : isdigit d = true := hdig d (List.mem_cons_self _ _)
      have hsp : isspace d = false := not_isspace_of_isdigit d hd
      have h45 : d ≠ 45 := by rw [isdigit_iff] at hd; omega
      have h43 : d ≠ 43 := by rw [isdigit_iff] at hd; omega
      rw [List.nil_append, List.cons_append, scanInt_cons d _ hsp, if_neg h45, if_neg h43]
      rw [List.cons_append] at htake hdrop
      rw [htake, hdrop, if_neg (by simp)]
      simp
  · subst h
    have hsp : isspace 45 = false := by decide
    rw [List.cons_append, List.nil_append, scanInt_cons 45 _ hsp, if_pos rfl, htake, hdrop,
      if_neg hne]
    simp
  · subst h
    have hsp : isspace 43 = false := by decide
    rw [List.cons_append, List.nil_append, scanInt_cons 43 _ hsp, if_neg (by decide),
      if_pos rfl, htake, hdrop, if_neg hne]
    simp

theorem dropWhile_isspace_literal (ws sign ds rest : List Int)
    (hws : ∀ c ∈ ws, isspace c = true)
    (hsign : sign = [] ∨ sign = [45] ∨ sign = [43]) (hne : ds ≠ [])
    (hdig : ∀ c ∈ ds, isdigit c = true) :
    (ws ++ (sign ++ (ds ++ rest))).dropWhile isspace = sign ++ (ds ++ rest) := by
  rw [List.dropWhile_append_of_pos hws]
  cases ds with
  | nil => exact absurd rfl hne
  | cons d ds2 =>
    have hsp : isspace d = false :=
      not_isspace_of_isdigit d (hdig d (List.mem_cons_self _ _))
    rcases hsign with h | h | h <;> subst h
    · simp [List.dropWhile, hsp]
    · have : isspace 45 = false := by decide
      simp [List.dropWhile, this]
    · have : isspace 43 = false := by decide
      simp [List.dropWhile, this]

theorem scanInt_dropWhile (s : List Int) : scanInt (s.dropWhile isspace) = scanInt s := by
  unfold scanInt
  rw [List.dropWhile_idempotent]

/-- The conversion with leading white space allowed. -/
theorem scanInt_spaced_literal (ws sign ds rest : List Int)
    (hws : ∀ c ∈ ws, isspace c = true)
    (hsign : sign = [] ∨ sign = [45] ∨ sign = [43]) (hne : ds ≠ [])
    (hdig : ∀ c ∈ ds, isdigit c = true)
    (hrest : ∀ c, rest.head? = some c → isdigit c = false) :
    scanInt (ws ++ (sign ++ (ds ++ rest))) =
      some (if sign = [45] then -(digitsValue ds : Int) else (digitsValue ds : Int), rest) := by
  rw [← scanInt_dropWhile, dropWhile_isspace_literal ws sign ds rest hws hsign hne hdig]
  exact scanInt_literal sign ds rest hsign hne hdig hrest

theorem parseInteger_spaced_literal (ws sign ds rest : List Int)
    (hws : ∀ c ∈ ws, isspace c = true)
    (hsign : sign = [] ∨ sign = [45] ∨ sign = [43]) (hne : ds ≠ [])
    (hdig : ∀ c ∈ ds, isdigit c = true)
    (hrest : ∀ c, rest.head? = some c → isdigit c = false) :
    parseInteger (ws ++ (sign ++ (ds ++ rest))) =
      some ({ val := if sign = [45] then -(digitsValue ds : Int) else (digitsValue ds : Int) },
        ws.length + sign.length + ds.length) := by
  unfold parseInteger
  rw [scanInt_spaced_literal ws sign ds rest hws hsign hne hdig hrest]
  simp only [List.length_append]
  congr 2
  omega

theorem scanInt_some_decompose (s : List Int) (v : Int) (rest : List Int)
    (h : scanInt s = some (v, rest)) :
    ∃ ws sign ds, s = ws ++ (sign ++ (ds ++ rest)) ∧ (∀ c ∈ ws, isspace c = true) ∧
      (sign = [] ∨ sign = [45] ∨ sign = [43]) ∧ ds ≠ [] ∧ (∀ c ∈ ds, isdigit c = true) := by
  have hsplit := List.takeWhile_append_dropWhile isspace s
  have hws : ∀ c ∈ s.takeWhile isspace, isspace c = true := fun c hc =>
    List.mem_takeWhile_imp hc
  unfold scanInt at h
  cases hd : s.dropWhile isspace with
  | nil => rw [hd] at h; cases h
  | cons c r =>
    rw [hd] at h hsplit
    simp only at h
    by_cases h45 : c = 45
    · rw [if_pos h45] at h
      by_cases he : r.takeWhile isdigit = []
      · rw [if_pos he] at h; cases h
      · rw [if_neg he] at h
        cases h
        refine ⟨s.takeWhile isspace, [45], r.takeWhile isdigit, ?_, hws, Or.inr (Or.inl rfl),
          he, fun c hc => List.mem_takeWhile_imp hc⟩
        rw [List.takeWhile_append_dropWhile, ← h45]
        exact hsplit.symm
    · rw [if_neg h45] at h
      by_cases h43 : c = 43
      · rw [if_pos h43] at h
        by_cases he : r.takeWhile isdigit = []
        · rw [if_pos he] at h; cases h
        · rw [if_neg he] at h
          cases h
          refine ⟨s.takeWhile isspace, [43], r.takeWhile isdigit, ?_, hws,
            Or.inr (Or.inr rfl), he, fun c hc => List.mem_takeWhile_imp hc⟩
          rw [List.takeWhile_append_dropWhile, ← h43]
          exact hsplit.symm
      · rw [if_neg h43] at h
        by_cases he : (c :: r).takeWhile isdigit = []
        · rw [if_pos he] at h; cases h
        · rw [if_neg he] at h
          cases h
          refine ⟨s.takeWhile isspace, [], (c :: r).takeWhile isdigit, ?_, hws, Or.inl rfl,
            he, fun c hc => List.mem_takeWhile_imp hc⟩
          rw [List.takeWhile_append_dropWhile, List.nil_append]
          exact hsplit.symm

theorem scanInt_isSome_of_shape (ws sign ds rest : List Int)
    (hws : ∀ c ∈ ws, isspace c = true)
    (hsign : sign = [] ∨ sign = [45] ∨ sign = [43]) (hne : ds ≠ [])
    (hdig : ∀ c ∈ ds, isdigit c = true) :
    (scanInt (ws ++ (sign ++ (ds ++ rest)))).isSome = true := by
  rw [← scanInt_dropWhile, dropWhile_isspace_literal ws sign ds rest hws hsign hne hdig]
  cases ds with
  | nil => exact absurd rfl hne
  | cons d ds2 =>
    have hd : isdigit d = true := hdig d (List.mem_cons_self _ _)
    have hsp : isspace d = false := not_isspace_of_isdigit d hd
    have h45 : d ≠ 45 := by rw [isdigit_iff] at hd; omega
    have h43 : d ≠ 43 := by rw [isdigit_iff] at hd; omega
    have htk : ∀ l : List Int, (d :: l).takeWhile isdigit ≠ [] := by
      intro l
      simp [List.takeWhile, hd]
    rcases hsign with h | h | h <;> subst h
    · rw [List.nil_append, List.cons_append, scanInt_cons d _ hsp, if_neg h45, if_neg h43,
        if_neg (htk _)]
      rfl
    · rw [List.cons_append, List.nil_append, List.cons_append,
        scanInt_cons 45 _ (by decide), if_pos rfl, if_neg (htk _)]
      rfl
    · rw [List.cons_append, List.nil_append, List.cons_append,
        scanInt_cons 43 _ (by decide), if_neg (by decide), if_pos rfl, if_neg (htk _)]
      rfl

theorem parseInteger_isSome_iff_scanInt (init : List Int) :
    (parseInteger init).isSome = (scanInt init).isSome := by
  unfold parseInteger
  cases scanInt init with
  | none => rfl
  | some r => rfl

/-! ## Printing a parsed literal -/

theorem digitsValue_cons_zero (rest : List Int) :
    digitsValue (48 :: rest) = digitsValue rest := by
  simp [digitsValue]

theorem digitsValue_strip (ds : List Int) :
    digitsValue (ds.dropWhile (fun c => decide (c = 48))) = digitsValue ds := by
  induction ds with
  | nil => rfl
  | cons c rest ih =>
    by_cases hc : c = 48
    · subst hc
      rw [digitsValue_cons_zero]
      simpa [List.dropWhile] using ih
    · simp [List.dropWhile, hc]

theorem digitsValue_foldl (ds : List Int) (acc : Nat) :
    ds.foldl (fun a c => 10 * a + (c - 48).toNat) acc =
      Nat.ofDigits 10 ((ds.map (fun c => (c - 48).toNat)).reverse ++ [acc]) := by
  induction ds generalizing acc with
  | nil => simp [Nat.ofDigits]
  | cons c rest ih =>
    rw [List.foldl_cons, ih]
    simp only [List.map_cons, List.reverse_cons, List.append_assoc, List.singleton_append]
    rw [Nat.ofDigits_append, Nat.ofDigits_append]
    simp [Nat.ofDigits]
    ring

theorem digitsValue_eq_ofDigits (ds : List Int) :
    digitsValue ds = Nat.ofDigits 10 ((ds.map (fun c => (c - 48).toNat)).reverse) := by
  unfold digitsValue
  rw [digitsValue_foldl, Nat.ofDigits_append]
  simp [Nat.ofDigits]

theorem digits_digitsValue (c : Int) (rest : List Int) (hc : c ≠ 48)
    (hdig : ∀ x ∈ c :: rest, isdigit x = true) :
    Nat.digits 10 (digitsValue (c :: rest)) =
      ((c :: rest).map (fun x => (x - 48).toNat)).reverse := by
  rw [digitsValue_eq_ofDigits]
  apply Nat.digits_ofDigits 10 (by norm_num)
  · intro l hl
    rw [List.mem_reverse, List.mem_map] at hl
    obtain ⟨x, hx, rfl⟩ := hl
    have := (isdigit_iff x).1 (hdig x hx)
    omega
  · intro hne
    have hcd := (isdigit_iff c).1 (hdig c (List.mem_cons_self _ _))
    simp only [List.map_cons, List.reverse_cons, List.getLast_append_singleton]
    omega

theorem map_char_of_digit (ds : List Int) (hdig : ∀ x ∈ ds, isdigit x = true) :
    (ds.map (fun x => (x - 48).toNat)).map (fun (d : Nat) => ((48 + d : Nat) : Int)) = ds := by
  rw [List.map_map]
  conv_rhs => rw [← List.map_id ds]
  apply List.map_congr_left
  intro x hx
  have := (isdigit_iff x).1 (hdig x hx)
  simp only [Function.comp, id]
  omega

/-- The decimal rendering of the number a digit string writes is the digit
string without its leading zeros, or the digit 0 when nothing else is left. -/
theorem render_digitsValue (ds : List Int) (hdig : ∀ x ∈ ds, isdigit x = true) :
    (if digitsValue ds = 0 then [48]
      else ((Nat.digits 10 (digitsValue ds)).reverse.map (fun d => 48 + d))).map
        (fun (b : Nat) => (b : Int)) =
      (if ds.dropWhile (fun c => decide (c = 48)) = [] then [48]
        else ds.dropWhile (fun c => decide (c = 48))) := by
  rw [← digitsValue_strip ds]
  have hsub : ∀ x ∈ ds.dropWhile (fun c => decide (c = 48)), isdigit x = true :=
    fun x hx => hdig x ((List.dropWhile_sublist _).subset hx)
  cases hL : ds.dropWhile (fun c => decide (c = 48)) with
  | nil => simp [digitsValue]
  | cons c rest =>
    rw [hL] at hsub
    have hc : c ≠ 48 := by
      have h := List.head_dropWhile_not (fun c => decide (c = 48)) ds
        (by rw [hL]; exact List.cons_ne_nil _ _)
      simp only [hL, List.head_cons] at h
      simpa using h
    have hd := digits_digitsValue c rest hc hsub
    have hne : digitsValue (c :: rest) ≠ 0 := by
      intro h0
      rw [h0] at hd
      simp at hd
    rw [if_neg hne, hd, List.reverse_reverse, if_neg (List.cons_ne_nil _ _), List.map_map]
    exact map_char_of_digit (c :: rest) hsub

/-- What print writes for the Integer parsed from a literal: a minus sign when
the value is negative, then the digits of the literal without leading zeros. -/
theorem print_of_digits (negative : Bool) (ds : List Int)
    (hdig : ∀ x ∈ ds, isdigit x = true) :
    Integer.print
        { val := if negative = true then -(digitsValue ds : Int) else (digitsValue ds : Int) } =
      (if (if negative = true then -(digitsValue ds : Int) else (digitsValue ds : Int)) < 0
        then [45] else []) ++
      (if ds.dropWhile (fun c => decide (c = 48)) = [] then [48]
        else ds.dropWhile (fun c => decide (c = 48))) := by
  have hr := render_digitsValue ds hdig
  have hab : (if negative = true then -(digitsValue ds : Int)
      else (digitsValue ds : Int)).natAbs = digitsValue ds := by
    cases negative <;> simp
  have hsgn : ∀ v : Int, List.map (fun (b : Nat) => (b : Int)) (if v < 0 then [45] else [])
      = if v < 0 then [45] else [] := fun v => by
    by_cases h : v < 0 <;> simp [h]
  show sprintfD _ = _
  rw [sprintfD_eq_decimalSpec]
  unfold decimalSpec
  rw [List.map_append, hab, hr, hsgn]

/-! ## Facts about the objects mapSet frees -/

theorem setChainFreed_erase (key value : Obj) (chain : List OwnedNode) :
    (setChainFreed key value chain).map (fun r => eraseAddrs r.1) =
      setChain (some key.val) (some value.val) (eraseAddrs chain) := by
  induction chain with
  | nil => rfl
  | cons node next ih =>
    by_cases hk : equalsVType (some node.key.val) (some key.val) = true
    · simp [setChainFreed, setChain, eraseAddrs, hk]
    · simp only [eraseAddrs, List.map_cons] at ih ⊢
      simp only [setChainFreed, setChain, hk, ← ih, Option.map_map, Bool.false_eq_true,
        if_false]
      cases setChainFreed key value next <;> rfl

/-- On a hit the search loop of mapSet frees exactly one object, the old value
of the matching node; the keys of the chain are the objects they were; and an
incoming key object that the chain did not hold is neither freed nor stored. -/
theorem setChainFreed_hit (key value : Obj) (chain chain2 : List OwnedNode)
    (freed : List Nat) (h : setChainFreed key value chain = some (chain2, freed))
    (hfresh : key.addr ∉ ownedAddrs chain) (hkv : key.addr ≠ value.addr) :
    freed.length = 1 ∧ (∀ a ∈ freed, a ∈ ownedAddrs chain) ∧
      chain2.map (fun node => node.key) = chain.map (fun node => node.key) ∧
      key.addr ∉ freed ∧ key.addr ∉ ownedAddrs chain2 := by
  induction chain generalizing chain2 freed with
  | nil => simp [setChainFreed] at h
  | cons node next ih =>
    have hfresh2 : key.addr ∉ ownedAddrs next := by
      intro hm
      apply hfresh
      simp only [ownedAddrs, List.flatMap_cons] at hm ⊢
      exact List.mem_append_right _ hm
    have hnk : key.addr ≠ node.key.addr ∧ key.addr ≠ node.value.addr := by
      constructor <;> intro he <;> apply hfresh <;> simp [ownedAddrs, ← he]
    by_cases hk : equalsVType (some node.key.val) (some key.val) = true
    · simp only [setChainFreed, hk, if_true, Option.some.injEq, Prod.mk.injEq] at h
      obtain ⟨rfl, rfl⟩ := h
      refine ⟨rfl, ?_, rfl, ?_, ?_⟩
      · intro a ha
        simp only [List.mem_singleton] at ha
        simp [ownedAddrs, ha]
      · simp [hnk.2]
      · simp only [ownedAddrs, List.flatMap_cons] at hfresh2 ⊢
        simp [hnk.1, hkv, ownedAddrs, hfresh2]
    · simp only [setChainFreed, hk, Bool.false_eq_true, if_false, Option.map_eq_some',
        Prod.mk.injEq] at h
      obtain ⟨r, hr, rfl, rfl⟩ := h
      obtain ⟨h1, h2, h3, h4, h5⟩ := ih r.1 r.2 hr hfresh2
      refine ⟨h1, ?_, ?_, h4, ?_⟩
      · intro a ha
        have := h2 a ha
        simp only [ownedAddrs, List.flatMap_cons] at this ⊢
        exact List.mem_append_right _ this
      · simp [h3]
      · simp only [ownedAddrs, List.flatMap_cons] at h5 ⊢
        simp [hnk.1, hnk.2, ownedAddrs, h5]

/-! ## Facts about driver.c -/

theorem Driver.main_at_end_of_input (fuel : Nat) (table : Driver.Table) :
    Driver.main fuel table [] =
      some { output := (List.replicate fuel
               (Driver.str "cmd> " ++ Driver.str "Error reading input.\n")).flatten,
             status := none } := by
  induction fuel with
  | zero => rfl
  | succ fuel ih =>
    rw [Driver.main, ih]
    simp [List.replicate_succ]

theorem Driver.scanCmd_word (w tail : List Int) (hne : w ≠ [])
    (hw : ∀ c ∈ w, isspace c = false) (hlen : w.length ≤ 19) :
    Driver.scanCmd (w ++ 32 :: tail) = some w := by
  have hsp : isspace 32 = true := by decide
  have hdrop : (w ++ 32 :: tail).dropWhile isspace = w ++ 32 :: tail := by
    cases w with
    | nil => exact absurd rfl hne
    | cons c w2 => simp [List.dropWhile, hw c (List.mem_cons_self _ _)]
  have htake : (w ++ 32 :: tail).takeWhile (fun c => !isspace c) = w := by
    rw [List.takeWhile_append_of_pos (fun c hc => by simp [hw c hc])]
    simp [List.takeWhile, hsp]
  unfold Driver.scanCmd
  rw [hdrop, htake, if_neg hne, List.take_of_length_le hlen]

theorem Driver.skipWord_word (w tail : List Int) (hne : w ≠ [])
    (hw : ∀ c ∈ w, isspace c = false) :
    Driver.skipWord (w ++ 32 :: tail) = some (32 :: tail) := by
  have hsp : isspace 32 = true := by decide
  have hdrop : (w ++ 32 :: tail).dropWhile isspace = w ++ 32 :: tail := by
    cases w with
    | nil => exact absurd rfl hne
    | cons c w2 => simp [List.dropWhile, hw c (List.mem_cons_self _ _)]
  have htake : (w ++ 32 :: tail).takeWhile (fun c => !isspace c) = w := by
    rw [List.takeWhile_append_of_pos (fun c hc => by simp [hw c hc])]
    simp [List.takeWhile, hsp]
  have hdrop2 : (w ++ 32 :: tail).dropWhile (fun c => !isspace c) = 32 :: tail := by
    rw [List.dropWhile_append_of_pos (fun c hc => by simp [hw c hc])]
    simp [List.dropWhile, hsp]
  unfold Driver.skipWord
  rw [hdrop, htake, if_neg hne, hdrop2]

theorem Driver.scanKey_literal (w sign ds tail : List Int) (hne0 : w ≠ [])
    (hw : ∀ c ∈ w, isspace c = false)
    (hsign : sign = [] ∨ sign = [45] ∨ sign = [43]) (hne : ds ≠ [])
    (hdig : ∀ c ∈ ds, isdigit c = true)
    (htail : ∀ c, tail.head? = some c → isdigit c = false) :
    Driver.scanKey (w ++ 32 :: (sign ++ (ds ++ tail))) =
      some (if sign = [45] then -(digitsValue ds : Int) else (digitsValue ds : Int)) := by
  unfold Driver.scanKey
  rw [Driver.skipWord_word w _ hne0 hw]
  have h := scanInt_spaced_literal [32] sign ds tail (by decide) hsign hne hdig htail
  simp only [List.singleton_append] at h
  simp only [h, Option.map_some']

theorem Driver.scanKeyValue_quote (w sign ds tail : List Int) (hne0 : w ≠ [])
    (hw : ∀ c ∈ w, isspace c = false)
    (hsign : sign = [] ∨ sign = [45] ∨ sign = [43]) (hne : ds ≠ [])
    (hdig : ∀ c ∈ ds, isdigit c = true) :
    Driver.scanKeyValue (w ++ 32 :: (sign ++ (ds ++ 32 :: QUOTE :: tail))) = none := by
  unfold Driver.scanKeyValue
  rw [Driver.skipWord_word w _ hne0 hw]
  have h := scanInt_spaced_literal [32] sign ds (32 :: QUOTE :: tail) (by decide) hsign hne hdig
    (by intro c hc; cases hc; decide)
  simp only [List.singleton_append] at h
  have h2 : scanInt (32 :: QUOTE :: tail) = none := by
    rw [← scanInt_dropWhile]
    have hd : (32 :: QUOTE :: tail).dropWhile isspace = QUOTE :: tail := by
      have h32 : isspace 32 = true := by decide
      have h34 : isspace QUOTE = false := by decide
      simp [List.dropWhile, h32, h34]
    rw [hd, scanInt_cons QUOTE tail (by decide), if_neg (by decide), if_neg (by decide)]
    have h34d : isdigit QUOTE = false := by decide
    simp [List.takeWhile, h34d]
  simp only [h, h2]

/-! ## Facts about the decimal rendering -/

theorem digits_length_int_range (n : Nat) (h : n ≤ 2 ^ 31) :
    (Nat.digits 10 n).length ≤ 10 := by
  have h1 := Nat.le_digits_len_le 10 n (2 ^ 31) h
  have h2 : (Nat.digits 10 (2 ^ 31)).length = 10 := by norm_num
  omega

theorem decimalSpec_length_le (i : Int) (hlo : -2 ^ 31 ≤ i) (hhi : i < 2 ^ 31) :
    (decimalSpec i).length ≤ 11 := by
  have hn : i.natAbs ≤ 2 ^ 31 := by omega
  have hd := digits_length_int_range i.natAbs hn
  unfold decimalSpec
  rw [List.length_append]
  have hs : (if i < 0 then [45] else ([] : List Nat)).length ≤ 1 := by
    split <;> simp
  have hr : (if i.natAbs = 0 then [48]
      else ((Nat.digits 10 i.natAbs).reverse.map (fun d => 48 + d))).length ≤ 10 := by
    split
    · simp
    · simpa using hd
  omega

theorem decimalSpec_head_minus_iff (i : Int) :
    (decimalSpec i).head? = some 45 ↔ i < 0 := by
  unfold decimalSpec
  by_cases hneg : i < 0
  · simp [hneg]
  · simp only [hneg, if_false, List.nil_append, iff_false]
    by_cases h0 : i.natAbs = 0
    · simp [h0]
    · rw [if_neg h0]
      cases hrev : (Nat.digits 10 i.natAbs).reverse with
      | nil => simp
      | cons d rest =>
        simp only [List.map_cons, List.head?_cons, Option.some.injEq]
        omega

/-! ## Facts about the hash of driver.c -/

theorem Driver.hash_of_nonneg (key : Int) (h : 0 ≤ key) :
    0 ≤ Driver.hash key ∧ Driver.hash key < 100 :=
  ⟨Int.tmod_nonneg _ h, Int.tmod_lt_of_pos key (by decide)⟩

/-! ## Facts about readLine -/

theorem readLoop_newline (charIsSigned : Bool) (post : List Nat) (pre : List Nat) :
    ∀ (capacity : Nat) (line : List Int), 10 ∉ pre → line.length < capacity →
      line.length + pre.length < 2 ^ 30 →
      readLoop charIsSigned true (pre ++ 10 :: post) capacity line true =
        some { line := some (line ++ cString charIsSigned pre), rest := post,
               inBounds := true } := by
  induction pre with
  | nil =>
    intro capacity line _ hcap _
    simp [readLoop, cString, hcap]
  | cons b pre ih =>
    intro capacity line hnl hcap hlen
    have hb : b ≠ 10 := fun hb => hnl (by simp [hb])
    have hpre : 10 ∉ pre := fun hp => hnl (List.mem_cons_of_mem _ hp)
    simp only [List.length_cons] at hlen
    have hrec : ∀ cap2, line.length + 1 < cap2 →
        readLoop charIsSigned true (pre ++ 10 :: post) cap2
          (line ++ [charOfByte charIsSigned b]) true =
        some { line := some (line ++ cString charIsSigned (b :: pre)), rest := post,
               inBounds := true } := by
      intro cap2 hc2
      rw [ih cap2 (line ++ [charOfByte charIsSigned b]) hpre (by simpa using hc2)
        (by simp; omega)]
      simp [cString]
    rw [List.cons_append, readLoop, if_neg hb]
    have hok : (true && decide (line.length < capacity)) = true := by simp [hcap]
    rw [hok]
    by_cases hfull : capacity ≤ line.length + 1
    · have hno : ¬ INT_MAX < capacity * 2 := by
        simp only [INT_MAX]
        omega
      rw [if_pos hfull, if_neg hno, if_pos rfl]
      exact hrec _ (by omega)
    · rw [if_neg hfull]
      exact hrec _ (by omega)

theorem readLoop_end (charIsSigned : Bool) (s : List Nat) :
    ∀ (capacity : Nat) (line : List Int), 10 ∉ s → line.length < capacity →
      line.length + s.length < 2 ^ 30 → (line ≠ [] ∨ s ≠ []) →
      readLoop charIsSigned true s capacity line true =
        some { line := some (line ++ cString charIsSigned s), rest := [],
               inBounds := true } := by
  induction s with
  | nil =>
    intro capacity line _ hcap _ hne
    have hl : line ≠ [] := by
      rcases hne with h | h
      · exact h
      · exact absurd rfl h
    have hlen : ¬ line.length = 0 := fun h => hl (List.length_eq_zero.1 h)
    simp [readLoop, cString, hcap, hlen]
  | cons b s ih =>
    intro capacity line hnl hcap hlen _
    have hb : b ≠ 10 := fun hb => hnl (by simp [hb])
    have hpre : 10 ∉ s := fun hp => hnl (List.mem_cons_of_mem _ hp)
    simp only [List.length_cons] at hlen
    have hrec : ∀ cap2, line.length + 1 < cap2 →
        readLoop charIsSigned true s cap2 (line ++ [charOfByte charIsSigned b]) true =
        some { line := some (line ++ cString charIsSigned (b :: s)), rest := [],
               inBounds := true } := by
      intro cap2 hc2
      rw [ih cap2 (line ++ [charOfByte charIsSigned b]) hpre (by simpa using hc2)
        (by simp; omega) (Or.inl (by simp))]
      simp [cString]
    rw [readLoop, if_neg hb]
    have hok : (true && decide (line.length < capacity)) = true := by simp [hcap]
    rw [hok]
    by_cases hfull : capacity ≤ line.length + 1
    · have hno : ¬ INT_MAX < capacity * 2 := by
        simp only [INT_MAX]
        omega
      rw [if_pos hfull, if_neg hno, if_pos rfl]
      exact hrec _ (by omega)
    · rw [if_neg hfull]
      exact hrec _ (by omega)

theorem readLoop_result (charIsSigned : Bool) (s : List Nat) :
    ∀ (capacity : Nat) (line : List Int) (r : LineRead), line.length < capacity →
      readLoop charIsSigned true s capacity line true = some r →
      r.inBounds = true ∧ (r.line = none ↔ line = [] ∧ s = []) := by
  induction s with
  | nil =>
    intro capacity line r hcap h
    by_cases hl : line.length = 0
    · have hnil : line = [] := List.length_eq_zero.1 hl
      simp [readLoop, hl] at h
      subst h
      simp [hnil]
    · have hnil : line ≠ [] := fun h => hl (by simp [h])
      simp [readLoop, hl, hcap] at h
      subst h
      simp [hnil]
  | cons b s ih =>
    intro capacity line r hcap h
    have hok : (true && decide (line.length < capacity)) = true := by simp [hcap]
    rw [readLoop, hok] at h
    by_cases hb : b = 10
    · rw [if_pos hb] at h
      simp at h
      subst h
      simp
    · rw [if_neg hb] at h
      have hrec : ∀ cap2, line.length + 1 < cap2 →
          readLoop charIsSigned true s cap2 (line ++ [charOfByte charIsSigned b]) true
            = some r → r.inBounds = true ∧ (r.line = none ↔ line = [] ∧ b :: s = []) := by
        intro cap2 hc2 h2
        obtain ⟨h3, h4⟩ := ih cap2 _ r (by simpa using hc2) h2
        refine ⟨h3, ?_⟩
        rw [h4]
        simp
      by_cases hfull : capacity ≤ line.length + 1
      · rw [if_pos hfull] at h
        by_cases hover : INT_MAX < capacity * 2
        · rw [if_pos hover] at h
          exact absurd h (by simp)
        · rw [if_neg hover, if_pos rfl] at h
          exact hrec _ (by omega) h
      · rw [if_neg hfull] at h
        exact hrec _ (by omega) h

theorem readLine_of_stream (stream : List Nat) (charIsSigned : Bool) :
    readLine (some stream) charIsSigned true true
      = readLoop charIsSigned true stream 16 [] true :=
  rfl

theorem readLoop_overflow (charIsSigned : Bool) (post : List Nat) (pre : List Nat) :
    ∀ (capacity : Nat) (line : List Int) (ok : Bool) (k : Nat), 10 ∉ pre →
      line.length < capacity → capacity * 2 ^ k = 2 ^ 30 →
      2 ^ 30 ≤ line.length + pre.length →
      readLoop charIsSigned true (pre ++ post) capacity line ok = none := by
  induction pre with
  | nil =>
    intro capacity line ok k _ hcap hpow hlen
    have hle : capacity ≤ capacity * 2 ^ k := Nat.le_mul_of_pos_right _ (Nat.two_pow_pos k)
    simp only [List.length_nil] at hlen
    omega
  | cons b pre ih =>
    intro capacity line ok k hnl hcap hpow hlen
    have hb : b ≠ 10 := fun hb => hnl (by simp [hb])
    have hpre : 10 ∉ pre := fun hp => hnl (List.mem_cons_of_mem _ hp)
    simp only [List.length_cons] at hlen
    rw [List.cons_append, readLoop, if_neg hb]
    by_cases hfull : capacity ≤ line.length + 1
    · rw [if_pos hfull]
      by_cases hover : INT_MAX < capacity * 2
      · rw [if_pos hover]
      · rw [if_neg hover, if_pos rfl]
        simp only [INT_MAX] at hover
        cases k with
        | zero =>
          simp only [pow_zero, Nat.mul_one] at hpow
          omega
        | succ k2 =>
          refine ih (capacity * 2) _ _ k2 hpre (by simp; omega) ?_ (by simp; omega)
          rw [← hpow, pow_succ]
          ring
    · rw [if_neg hfull]
      exact ih capacity _ _ k hpre (by simp; omega) hpow (by simp; omega)

theorem readLine_returns (charIsSigned : Bool) (s : List Nat)
    (hlen : (s.takeWhile (fun b => decide (b ≠ 10))).length < 2 ^ 30) :
    ∃ r, readLine (some s) charIsSigned true true = some r := by
  have hsplit := List.takeWhile_append_dropWhile (fun b => decide (b ≠ 10)) s
  have hpre : 10 ∉ s.takeWhile (fun b => decide (b ≠ 10)) := by
    intro hmem
    have := List.mem_takeWhile_imp hmem
    simp at this
  rw [readLine_of_stream]
  cases hrest : s.dropWhile (fun b => decide (b ≠ 10)) with
  | nil =>
    rw [hrest, List.append_nil] at hsplit
    rw [hsplit] at hpre hlen
    by_cases hs : s = []
    · subst hs
      exact ⟨_, rfl⟩
    · exact ⟨_, readLoop_end charIsSigned s 16 [] hpre (by simp) (by simpa using hlen)
        (Or.inr hs)⟩
  | cons c post =>
    have hne : s.dropWhile (fun b => decide (b ≠ 10)) ≠ [] := by
      rw [hrest]
      exact List.cons_ne_nil _ _
    have hc := List.head_dropWhile_not (fun b => decide (b ≠ 10)) s hne
    simp only [hrest, List.head_cons] at hc
    have hc10 : c = 10 := by simpa using hc
    subst hc10
    rw [hrest] at hsplit
    rw [← hsplit]
    exact ⟨_, readLoop_newline charIsSigned post _ 16 [] hpre (by simp)
      (by simpa using hlen)⟩

/-! ## Lookups with keys that equalsVType tells apart, NULL included -/

theorem equalsVType_other_of_unequal (k k2 : Option VType)
    (h : equalsVType k k2 = false) (x : Option VType)
    (hx : equalsVType x k = true) : equalsVType x k2 = false := by
  obtain ⟨v, h1, h2⟩ := (equalsVType_iff _ _).1 hx
  rw [h1, ← h2]
  exact h

theorem mapGet_mapSet_unequal (m : Map) (k k2 value : Option VType) (mallocOk : Bool)
    (h : equalsVType k k2 = false) :
    mapGet (mapSet m k value mallocOk) k2 = mapGet m k2 := by
  have hidx : bucketIndex (mapSet m k value mallocOk) k2 = bucketIndex m k2 := rfl
  unfold mapGet
  rw [hidx]
  by_cases hi : bucketIndex m k2 = bucketIndex m k
  · rw [hi, table_mapSet_self]
    cases hs : setChain k value (m.table (bucketIndex m k)) with
    | some chain =>
      exact getChain_setChain_other _ _ _ _ _ hs (equalsVType_other_of_unequal k k2 h)
    | none =>
      cases mallocOk with
      | true => simp [getChain, h]
      | false => rfl
  · rw [table_mapSet_other _ _ _ _ _ hi]

theorem mapGet_mapRemove_unequal (m : Map) (k k2 : Option VType)
    (h : equalsVType k k2 = false) :
    mapGet (mapRemove m k).2 k2 = mapGet m k2 := by
  have hidx : bucketIndex (mapRemove m k).2 k2 = bucketIndex m k2 := rfl
  unfold mapGet
  rw [hidx]
  by_cases hi : bucketIndex m k2 = bucketIndex m k
  · rw [hi, table_mapRemove_self]
    cases hs : removeChain k (m.table (bucketIndex m k)) with
    | some chain =>
      exact getChain_removeChain_other _ _ _ _ hs (equalsVType_other_of_unequal k k2 h)
    | none => rfl
  · rw [table_mapRemove_other _ _ _ hi]

/-! ## Facts about the probing of get -/

theorem Driver.getFrom_miss (table : Driver.Table) (key : Int) (d : Nat) :
    ∀ (fuel index : Nat), d < fuel → index < 100 →
      (∀ j < d, ∃ e, table ((index + j) % 100) = some e ∧ e.key ≠ key) →
      table ((index + d) % 100) = none →
      Driver.getFrom fuel table index key = some none := by
  induction d with
  | zero =>
    intro fuel index hfuel hidx _ hnone
    obtain ⟨f, rfl⟩ : ∃ f, fuel = f + 1 := ⟨fuel - 1, by omega⟩
    rw [Nat.add_zero, Nat.mod_eq_of_lt hidx] at hnone
    simp [Driver.getFrom, hnone]
  | succ d ih =>
    intro fuel index hfuel hidx hpre hnone
    obtain ⟨f, rfl⟩ : ∃ f, fuel = f + 1 := ⟨fuel - 1, by omega⟩
    obtain ⟨e, he, hk⟩ := hpre 0 (by omega)
    rw [Nat.add_zero, Nat.mod_eq_of_lt hidx] at he
    have hstep : ∀ j, ((index + 1) % 100 + j) % 100 = (index + (j + 1)) % 100 := by
      intro j
      omega
    have hrec := ih f ((index + 1) % 100) (by omega) (Nat.mod_lt _ (by decide))
      (fun j hj => by rw [hstep]; exact hpre (j + 1) (by omega))
      (by rw [hstep]; exact hnone)
    simp [Driver.getFrom, he, hk, hrec, Driver.TABLE_SIZE]

theorem Driver.getFrom_hit (table : Driver.Table) (key : Int) (entry : Driver.Entry)
    (d : Nat) :
    ∀ (fuel index : Nat), d < fuel → index < 100 →
      (∀ j < d, ∃ e, table ((index + j) % 100) = some e ∧ e.key ≠ key) →
      table ((index + d) % 100) = some entry → entry.key = key →
      Driver.getFrom fuel table index key = some (some entry.value) := by
  induction d with
  | zero =>
    intro fuel index hfuel hidx _ hsome hkey
    obtain ⟨f, rfl⟩ : ∃ f, fuel = f + 1 := ⟨fuel - 1, by omega⟩
    rw [Nat.add_zero, Nat.mod_eq_of_lt hidx] at hsome
    simp [Driver.getFrom, hsome, hkey]
  | succ d ih =>
    intro fuel index hfuel hidx hpre hsome hkey
    obtain ⟨f, rfl⟩ : ∃ f, fuel = f + 1 := ⟨fuel - 1, by omega⟩
    obtain ⟨e, he, hk⟩ := hpre 0 (by omega)
    rw [Nat.add_zero, Nat.mod_eq_of_lt hidx] at he
    have hstep : ∀ j, ((index + 1) % 100 + j) % 100 = (index + (j + 1)) % 100 := by
      intro j
      omega
    have hrec := ih f ((index + 1) % 100) (by omega) (Nat.mod_lt _ (by decide))
      (fun j hj => by rw [hstep]; exact hpre (j + 1) (by omega))
      (by rw [hstep]; exact hsome) hkey
    simp [Driver.getFrom, he, hk, hrec, Driver.TABLE_SIZE]

theorem Driver.first_free_slot (table : Driver.Table) (key : Int) (index : Nat)
    (hidx : index < 100)
    (habsent : ∀ i < 100, ∀ e, table i = some e → e.key ≠ key)
    (hfree : ∃ i < 100, table i = none) :
    ∃ d < 100, (∀ j < d, ∃ e, table ((index + j) % 100) = some e ∧ e.key ≠ key) ∧
      table ((index + d) % 100) = none := by
  classical
  obtain ⟨i, hi, hnone⟩ := hfree
  have hex : ∃ d, table ((index + d) % 100) = none := by
    refine ⟨(i + 100 - index) % 100, ?_⟩
    have : (index + (i + 100 - index) % 100) % 100 = i := by omega
    rw [this]
    exact hnone
  have hle : Nat.find hex ≤ (i + 100 - index) % 100 := by
    apply Nat.find_min'
    have : (index + (i + 100 - index) % 100) % 100 = i := by omega
    rw [this]
    exact hnone
  refine ⟨Nat.find hex, by omega, fun j hj => ?_, Nat.find_spec hex⟩
  have hne := Nat.find_min hex hj
  cases hs : table ((index + j) % 100) with
  | none => exact absurd hs hne
  | some e => exact ⟨e, rfl, habsent _ (Nat.mod_lt _ (by decide)) e hs⟩

theorem Driver.get_of_absent (table : Driver.Table) (key : Int) (hkey : 0 ≤ key)
    (habsent : ∀ i < 100, ∀ e, table i = some e → e.key ≠ key)
    (hfree : ∃ i < 100, table i = none) :
    Driver.get table key = some none := by
  obtain ⟨h0, h100⟩ := Driver.hash_of_nonneg key hkey
  have hidx : (Driver.hash key).toNat < 100 := by omega
  obtain ⟨d, hd, hpre, hnone⟩ := Driver.first_free_slot table key _ hidx habsent hfree
  unfold Driver.get
  rw [if_neg (by omega)]
  exact Driver.getFrom_miss table key d _ _ hd hidx hpre hnone

theorem Driver.get_of_probe (table : Driver.Table) (key : Int) (hkey : 0 ≤ key)
    (entry : Driver.Entry) (d : Nat) (hd : d < 100)
    (hpre : ∀ j < d, ∃ e, table (((Driver.hash key).toNat + j) % 100) = some e ∧ e.key ≠ key)
    (hsome : table (((Driver.hash key).toNat + d) % 100) = some entry)
    (hentry : entry.key = key) :
    Driver.get table key = some (some entry.value) := by
  obtain ⟨h0, h100⟩ := Driver.hash_of_nonneg key hkey
  have hidx : (Driver.hash key).toNat < 100 := by omega
  unfold Driver.get
  rw [if_neg (by omega)]
  exact Driver.getFrom_hit table key entry d _ _ hd hidx hpre hsome hentry

theorem scanInt_space_quote (tail : List Int) : scanInt (32 :: QUOTE :: tail) = none := by
  rw [← scanInt_dropWhile]
  have hd : (32 :: QUOTE :: tail).dropWhile isspace = QUOTE :: tail := by
    have h32 : isspace 32 = true := by decide
    have h34 : isspace QUOTE = false := by decide
    simp [List.dropWhile, h32, h34]
  rw [hd, scanInt_cons QUOTE tail (by decide), if_neg (by decide), if_neg (by decide)]
  have h34d : isdigit QUOTE = false := by decide
  simp [List.takeWhile, h34d]

theorem Driver.scanKey_quote (w tail : List Int) (hne0 : w ≠ [])
    (hw : ∀ c ∈ w, isspace c = false) :
    Driver.scanKey (w ++ 32 :: QUOTE :: tail) = none := by
  unfold Driver.scanKey
  rw [Driver.skipWord_word w _ hne0 hw]
  simp only [scanInt_space_quote, Option.map_none']

theorem Driver.scanKeyValue_quote_key (w tail : List Int) (hne0 : w ≠ [])
    (hw : ∀ c ∈ w, isspace c = false) :
    Driver.scanKeyValue (w ++ 32 :: QUOTE :: tail) = none := by
  unfold Driver.scanKeyValue
  rw [Driver.skipWord_word w _ hne0 hw]
  simp only [scanInt_space_quote]

/-! ## The claims -/

/-- C1: after mapSet(m, k, v) with non-NULL k and v and a successful node
allocation, mapGet(m, k) returns v, which equalsVType reports equal to v. It
holds for every map state, in particular for every reachable one. -/
theorem mapGet_after_mapSet (m : Map) (k v : VType) :
    mapGet (mapSet m (some k) (some v) true) (some k) = some v ∧
      equalsVType (mapGet (mapSet m (some k) (some v) true) (some k)) (some v) = true := by
  rw [mapGet_mapSet_self]
  exact ⟨rfl, equalsVType_self v⟩

/-- C2: after mapSet(m, k, v1) and then mapSet(m, k, v2), mapGet(m, k) returns
v2, and mapSize is the same after the second mapSet as after the first. -/
theorem mapSet_twice (m : Map) (k v1 v2 : VType) :
    mapGet (mapSet (mapSet m (some k) (some v1) true) (some k) (some v2) true) (some k)
        = some v2 ∧
      mapSize (mapSet (mapSet m (some k) (some v1) true) (some k) (some v2) true)
        = mapSize (mapSet m (some k) (some v1) true) :=
  ⟨mapGet_mapSet_self _ _ _, mapSize_mapSet _ _ _ _⟩

/-- C6: when no stored key equals k, mapRemove(m, k) returns false and the map
(every bucket chain and the size) is unchanged. -/
theorem mapRemove_absent (m : Map) (k : VType) (h : ¬ holdsKey m (some k)) :
    mapRemove m (some k) = (false, m) := by
  have hnone : removeChain (some k) (m.table (bucketIndex m (some k))) = none :=
    (removeChain_eq_none_iff _ _).2 (absentIn_of_not_holdsKey m _ h _)
  simp [mapRemove, hnone]

/-- C10: when no stored key equals k, mapGet(m, k) returns NULL. -/
theorem mapGet_absent (m : Map) (k : VType) (h : ¬ holdsKey m (some k)) :
    mapGet m (some k) = none :=
  getChain_of_absentIn _ _ (absentIn_of_not_holdsKey m _ h _)

/-- C10 at a concrete input: the key `missing` on the map made by makeMap(3). -/
theorem mapGet_absent_witness :
    makeMap 3 true = some (freshMap 3) ∧ ¬ holdsKey (freshMap 3) (some textMissing) ∧
      mapGet (freshMap 3) (some textMissing) = none :=
  ⟨rfl, not_holdsKey_freshMap 3 _,
    mapGet_absent (freshMap 3) textMissing (not_holdsKey_freshMap 3 _)⟩

/-- C6 at a concrete input: removing the key `b` from the map that holds only
the key `a`. -/
theorem mapRemove_absent_witness :
    ¬ holdsKey (mapSet (freshMap 3) (some textA) (some (VType.Integer 1)) true) (some textB) ∧
      mapRemove (mapSet (freshMap 3) (some textA) (some (VType.Integer 1)) true) (some textB)
        = (false, mapSet (freshMap 3) (some textA) (some (VType.Integer 1)) true) :=
  have h : ¬ holdsKey (mapSet (freshMap 3) (some textA) (some (VType.Integer 1)) true)
      (some textB) := fun hk =>
    (holdsKey_of_mapSet _ _ _ _ _ hk).elim (not_holdsKey_freshMap 3 _) (by decide)
  ⟨h, mapRemove_absent _ textB h⟩

/-- C8: on a reachable map, after mapRemove(m, k) the key k is absent for
mapGet, and a second mapRemove(m, k) returns false and leaves the map as the
first call left it. -/
theorem mapRemove_twice (m : Map) (k : VType) (h : Reachable m) :
    mapGet (mapRemove m (some k)).2 (some k) = none ∧
      mapRemove (mapRemove m (some k)).2 (some k) = (false, (mapRemove m (some k)).2) := by
  have habs := absentIn_after_mapRemove m (some k) h
  have hidx : bucketIndex (mapRemove m (some k)).2 (some k) = bucketIndex m (some k) := rfl
  constructor
  · unfold mapGet
    rw [hidx]
    exact getChain_of_absentIn _ _ habs
  · have hnone := (removeChain_eq_none_iff _ _).2 habs
    rw [← hidx] at hnone
    generalize (mapRemove m (some k)).2 = m2 at hnone
    simp [mapRemove, hnone]

/-- C8 at a concrete input: the key `a` removed twice from the reachable map
that holds the key `a`. -/
theorem mapRemove_twice_witness :
    Reachable (mapSet (freshMap 3) (some textA) (some (VType.Integer 1)) true) ∧
      (mapRemove (mapSet (freshMap 3) (some textA) (some (VType.Integer 1)) true)
        (some textA)).1 = true ∧
      mapGet (mapRemove (mapSet (freshMap 3) (some textA) (some (VType.Integer 1)) true)
        (some textA)).2 (some textA) = none ∧
      mapRemove (mapRemove (mapSet (freshMap 3) (some textA) (some (VType.Integer 1)) true)
        (some textA)).2 (some textA)
        = (false, (mapRemove (mapSet (freshMap 3) (some textA) (some (VType.Integer 1)) true)
            (some textA)).2) :=
  have hr : Reachable (mapSet (freshMap 3) (some textA) (some (VType.Integer 1)) true) :=
    Reachable.set _ _ _ _ (Reachable.make 3 (freshMap 3) (by decide) (by decide) rfl)
  ⟨hr, by decide, mapRemove_twice _ textA hr⟩

/-- C3, evaluated on the first steps of mapTest.c: makeMap(3) and then mapSet
of the new key `key1`. The key is stored, yet mapSize is 3 before and 3 after
the call, not 4. -/
theorem mapSet_new_key_keeps_size :
    makeMap 3 true = some (freshMap 3) ∧
      ¬ holdsKey (freshMap 3) (some textKey1) ∧
      mapSize (freshMap 3) = 3 ∧
      holdsKey (mapSet (freshMap 3) (some textKey1) (some (VType.Integer 42)) true)
        (some textKey1) ∧
      mapSize (mapSet (freshMap 3) (some textKey1) (some (VType.Integer 42)) true) = 3 :=
  ⟨rfl, not_holdsKey_freshMap 3 _, rfl, holdsKey_mapSet_self _ _ _, rfl⟩

/-- C4, evaluated on makeMap(0) followed by mapSet(a, 1): the state is
reachable, one entry is stored in the buckets, and mapSize is 0. -/
theorem mapSize_differs_from_entryCount :
    makeMap 0 true = some (freshMap 0) ∧
      Reachable (oneKeyMap 0) ∧
      entryCount (oneKeyMap 0) = 1 ∧
      mapSize (oneKeyMap 0) = 0 := by
  refine ⟨rfl, ?_, ?_, rfl⟩
  · exact Reachable.set _ _ _ _ (Reachable.make 0 (freshMap 0) (by decide) (by decide) rfl)
  · unfold oneKeyMap
    rw [entryCount_mapSet_absent, entryCount_freshMap]
    exact absentIn_of_not_holdsKey _ _ (not_holdsKey_freshMap 0 _) _

/-- C5, evaluated on makeMap(3) as called by mapTest.c: every bucket is empty
and mapGet finds no key, but mapSize is 3, not 0. -/
theorem makeMap_three_size :
    makeMap 3 true = some (freshMap 3) ∧
      (∀ i, (freshMap 3).table i = []) ∧
      (∀ key, mapGet (freshMap 3) key = none) ∧
      entryCount (freshMap 3) = 0 ∧
      mapSize (freshMap 3) = 3 :=
  ⟨rfl, fun _ => rfl, fun _ => rfl, entryCount_freshMap 3, rfl⟩

/-- C7, evaluated on makeMap(1); mapSet(a, 1); mapSet(b, 2); mapRemove(a);
mapRemove(b): before the second removal the map is reachable, holds the key
`b` and has mapSize 0; the call returns true and mapSize becomes
2^64 - 1 instead of one less. -/
theorem mapRemove_size_wraps :
    makeMap 1 true = some (freshMap 1) ∧
      Reachable afterFirstRemove ∧
      mapGet afterFirstRemove (some textB) = some (VType.Integer 2) ∧
      mapSize afterFirstRemove = 0 ∧
      (mapRemove afterFirstRemove (some textB)).1 = true ∧
      mapSize (mapRemove afterFirstRemove (some textB)).2 = 18446744073709551615 := by
  refine ⟨rfl, ?_, by decide, by decide, by decide, by decide⟩
  exact Reachable.remove _ _ (Reachable.set _ _ _ _ (Reachable.set _ _ _ _
    (Reachable.make 1 (freshMap 1) (by decide) (by decide) rfl)))

/-- C9, evaluated on makeMap(3); mapSet(a, 1); mapRemove(a): mapGet(a) is
absent afterwards, but mapSize is 3 before the mapSet and 2 after the
mapRemove. -/
theorem mapSet_mapRemove_size :
    makeMap 3 true = some (freshMap 3) ∧
      mapSize (freshMap 3) = 3 ∧
      (mapRemove (oneKeyMap 3) (some textA)).1 = true ∧
      mapGet (mapRemove (oneKeyMap 3) (some textA)).2 (some textA) = none ∧
      mapSize (mapRemove (oneKeyMap 3) (some textA)).2 = 2 :=
  ⟨rfl, rfl, by decide, by decide, by decide⟩

/-- C11, evaluated on makeMap(3); mapSet(az, 1); mapSet(bY, 2), two different
keys of the same bucket: both values are retrievable, removing either key
leaves the other retrievable, and two entries are stored; but mapSize is 3
before the two insertions and still 3 after them. -/
theorem collision_size_not_accounted :
    makeMap 3 true = some (freshMap 3) ∧
      textAz ≠ textBY ∧
      bucketIndex (freshMap 3) (some textAz) = bucketIndex (freshMap 3) (some textBY) ∧
      ¬ holdsKey (freshMap 3) (some textAz) ∧
      ¬ holdsKey (freshMap 3) (some textBY) ∧
      mapGet collisionMap (some textAz) = some (VType.Integer 1) ∧
      mapGet collisionMap (some textBY) = some (VType.Integer 2) ∧
      mapGet (mapRemove collisionMap (some textAz)).2 (some textAz) = none ∧
      mapGet (mapRemove collisionMap (some textAz)).2 (some textBY) = some (VType.Integer 2) ∧
      mapGet (mapRemove collisionMap (some textBY)).2 (some textBY) = none ∧
      mapGet (mapRemove collisionMap (some textBY)).2 (some textAz) = some (VType.Integer 1) ∧
      entryCount collisionMap = 2 ∧
      mapSize (freshMap 3) = 3 ∧
      mapSize collisionMap = 3 := by
  refine ⟨rfl, by decide, by decide, not_holdsKey_freshMap 3 _, not_holdsKey_freshMap 3 _,
    by decide, by decide, by decide, by decide, by decide, by decide, ?_, rfl, rfl⟩
  unfold collisionMap
  rw [entryCount_mapSet_absent, entryCount_mapSet_absent, entryCount_freshMap]
  · exact absentIn_of_not_holdsKey _ _ (not_holdsKey_freshMap 3 _) _
  · intro node hnode
    have hk : holdsKey (mapSet (freshMap 3) (some textAz) (some (VType.Integer 1)) true)
        (some textBY) → False := fun hk =>
      (holdsKey_of_mapSet _ _ _ _ _ hk).elim (not_holdsKey_freshMap 3 _) (by decide)
    by_contra hne
    exact hk ⟨_, node, hnode, by simpa using hne⟩

/-- C12 as stated fails where plain `char` is signed: for the one-byte text
with byte 200 the loop adds -56, giving 177517, while djb2 over the unsigned
byte gives 177773. -/
theorem hashVType_signed_char_byte :
    hashVType (some (VType.Text (cString true [200]))) = 177517 ∧
      djb2Spec [200] = 177773 ∧
      hashVType (some (VType.Text (cString true [200]))) ≠ djb2Spec [200] := by
  decide

/-- C12, amended: for a Text whose bytes are all at most 127, and for every
byte sequence where plain `char` is unsigned, hashVType is the djb2 hash of the
bytes: from 5381, each byte c turns h into (h * 33 + c) mod 2^32. -/
theorem hashVType_text_djb2 (charIsSigned : Bool) (s : List Nat)
    (h : charIsSigned = true → ∀ b ∈ s, b ≤ 127) :
    hashVType (some (VType.Text (cString charIsSigned s))) = djb2Spec s := by
  rw [cString_of_small charIsSigned s h]
  exact hashLoop_natCast s 5381

/-- C12 amended, at a concrete input: the text `abc` with signed `char`. -/
theorem hashVType_text_djb2_witness :
    (true = true → ∀ b ∈ [97, 98, 99], b ≤ 127) ∧
      hashVType (some (VType.Text (cString true [97, 98, 99]))) = djb2Spec [97, 98, 99] :=
  ⟨by decide, hashVType_text_djb2 true [97, 98, 99] (by decide)⟩

/-- C13: the test vectors of hashVType on Text values: the empty text gives
5381, the text `a` gives 0x0002B606 and the text `abc` gives 0x0B885C8B. -/
theorem hashVType_test_vectors :
    hashVType (some (VType.Text [])) = 5381 ∧
      hashVType (some (VType.Text [97])) = 0x0002B606 ∧
      hashVType (some (VType.Text [97, 98, 99])) = 0x0B885C8B := by
  decide

/-- C14 as stated fails: hashVType of the Integer 0 is 177621, not 0, and of
the Integer -1 it is 5861443, not 2^32 - 1. -/
theorem hashVType_integer_not_reinterpretation :
    hashVType (some (VType.Integer 0)) = 177621 ∧
      hashVType (some (VType.Integer 0)) ≠ ((0 : Int) % 2 ^ 32).toNat ∧
      hashVType (some (VType.Integer (-1))) = 5861443 ∧
      hashVType (some (VType.Integer (-1))) ≠ ((-1 : Int) % 2 ^ 32).toNat := by
  decide

/-- C14, amended: hashVType of an Integer is the djb2 hash of the characters of
its canonical decimal form (a minus sign for a negative number, then the
digits without leading zero). -/
theorem hashVType_integer_decimal (i : Int) :
    hashVType (some (VType.Integer i)) = djb2Spec (decimalSpec i) := by
  show hashLoop 5381 (sprintfD i) = djb2Spec (decimalSpec i)
  rw [sprintfD_eq_decimalSpec]
  exact hashLoop_natCast _ 5381

/-- C15: on non-NULL values equalsVType is reflexive, symmetric and
transitive. -/
theorem equalsVType_equivalence (a b c : VType) :
    equalsVType (some a) (some a) = true ∧
      (equalsVType (some a) (some b) = true → equalsVType (some b) (some a) = true) ∧
      (equalsVType (some a) (some b) = true → equalsVType (some b) (some c) = true →
        equalsVType (some a) (some c) = true) := by
  refine ⟨equalsVType_self a, fun h => ?_, fun hab hbc => ?_⟩
  · rw [equalsVType_comm]
    exact h
  · rw [equalsVType_comm] at hbc
    rw [equalsVType_comm]
    exact equalsVType_of_common_right hab hbc

/-- C15 at a concrete input: the Integer 7 against itself, with the hypotheses
of symmetry and transitivity discharged. -/
theorem equalsVType_equivalence_witness :
    equalsVType (some (VType.Integer 7)) (some (VType.Integer 7)) = true ∧
      equalsVType (some (VType.Text [97])) (some textA) = true ∧
      equalsVType (some textA) (some (VType.Text [97])) = true :=
  ⟨(equalsVType_equivalence (VType.Integer 7) (VType.Integer 7) (VType.Integer 7)).1,
    (equalsVType_equivalence textA (VType.Text [97]) textA).2.1 (by decide),
    (equalsVType_equivalence textA (VType.Text [97]) (VType.Text [97])).2.2
      (by decide) (by decide)⟩

/-- C16: equalsVType on non-NULL values is true exactly for the same variant
with the same payload: equal integers, or texts with the same characters; an
Integer and a Text are never equal, for instance the Integer 42 and the
Text `42`. -/
theorem equalsVType_characterised :
    (∀ a b : VType, equalsVType (some a) (some b) = true ↔ a = b) ∧
      (∀ i j : Int, equalsVType (some (VType.Integer i)) (some (VType.Integer j)) = true
        ↔ i = j) ∧
      (∀ s t : List Int, equalsVType (some (VType.Text s)) (some (VType.Text t)) = true
        ↔ s = t) ∧
      (∀ (i : Int) (s : List Int),
        equalsVType (some (VType.Integer i)) (some (VType.Text s)) = false ∧
        equalsVType (some (VType.Text s)) (some (VType.Integer i)) = false) ∧
      equalsVType (some (VType.Integer 42)) (some (VType.Text [52, 50])) = false := by
  refine ⟨fun a b => ?_, fun i j => ?_, fun s t => ?_, fun i s => ⟨rfl, rfl⟩, rfl⟩
  · cases a <;> cases b <;> simp [equalsVType]
  · simp [equalsVType]
  · simp [equalsVType]

/-- C17: values that equalsVType reports equal have the same hashVType; and the
hash of a Text is determined by its character sequence. -/
theorem hashVType_respects_equalsVType (a b : VType)
    (h : equalsVType (some a) (some b) = true) :
    hashVType (some a) = hashVType (some b) ∧
      ∀ s t : List Int, s = t →
        hashVType (some (VType.Text s)) = hashVType (some (VType.Text t)) :=
  ⟨hashVType_eq_of_equalsVType _ _ h, fun _ _ hst => by rw [hst]⟩

/-- C17 at a concrete input: two Text values holding `abc`. -/
theorem hashVType_respects_equalsVType_witness :
    equalsVType (some (VType.Text [97, 98, 99])) (some (VType.Text [97, 98, 99])) = true ∧
      hashVType (some (VType.Text [97, 98, 99])) = hashVType (some (VType.Text [97, 98, 99])) :=
  ⟨by decide,
    (hashVType_respects_equalsVType (VType.Text [97, 98, 99]) (VType.Text [97, 98, 99])
      (by decide)).1⟩

/-- C18 as stated fails: for s a single tab (no double quote in it) the scan
stops at the tab, and the consumed count is 1, not length(s) + 2 = 3. -/
theorem parseText_count_stops_at_tab :
    QUOTE ∉ [(9 : Int)] ∧
      (parseText (quoted [9]) true true).map Prod.snd = some 1 ∧
      (parseText (quoted [9]) true true).map Prod.snd ≠ some ([(9 : Int)].length + 2) := by
  decide

/-- C18, amended: for every s containing no tab and no newline (with or without
a double quote) parseText on quote, s, quote reports the consumed count
length(s) + 2: every character of the input is counted. -/
theorem parseText_quoted_count (s : List Int) (ht : (9 : Int) ∉ s) (hn : (10 : Int) ∉ s) :
    (parseText (quoted s) true true).map Prod.snd = some (s.length + 2) := by
  rw [parseText_quoted s ht hn]
  rfl

/-- C18 amended, at the literals of textTest.c: counts 5 for `abc` and 3 for
`a`. -/
theorem parseText_quoted_count_witness :
    (9 : Int) ∉ [(97 : Int), 98, 99] ∧ (10 : Int) ∉ [(97 : Int), 98, 99] ∧
      (parseText (quoted [97, 98, 99]) true true).map Prod.snd = some 5 ∧
      (parseText (quoted [97]) true true).map Prod.snd = some 3 :=
  ⟨by decide, by decide, parseText_quoted_count [97, 98, 99] (by decide) (by decide),
    parseText_quoted_count [97] (by decide) (by decide)⟩

/-- C19 as stated fails: for the literal `abc` in double quotes the returned
Text holds the five characters quote, a, b, c, quote and has length 5; it does
not hold exactly a, b, c with length 3. -/
theorem parseText_keeps_quotes :
    (parseText (quoted [97, 98, 99]) true true).map (fun r => (r.1.data, textLength r.1))
        = some ([34, 97, 98, 99, 34], 5) ∧
      (parseText (quoted [97, 98, 99]) true true).map (fun r => (r.1.data, textLength r.1))
        ≠ some ([97, 98, 99], 3) := by
  decide

/-- C19, amended: for every s containing no tab and no newline the Text
returned by parseText on quote, s, quote holds the whole input, the two quotes
included, and its length is length(s) + 2. -/
theorem parseText_quoted_text (s : List Int) (ht : (9 : Int) ∉ s) (hn : (10 : Int) ∉ s) :
    ∃ t n, parseText (quoted s) true true = some (t, n) ∧
      t.data = QUOTE :: (s ++ [QUOTE]) ∧ textLength t = s.length + 2 :=
  ⟨_, _, parseText_quoted s ht hn, rfl, rfl⟩

/-- C19 amended, at a concrete input: the literal `abc` in double quotes. -/
theorem parseText_quoted_text_witness :
    (9 : Int) ∉ [(97 : Int), 98, 99] ∧ (10 : Int) ∉ [(97 : Int), 98, 99] ∧
      ∃ t n, parseText (quoted [97, 98, 99]) true true = some (t, n) ∧
        t.data = QUOTE :: ([97, 98, 99] ++ [QUOTE]) ∧ textLength t = [(97 : Int), 98, 99].length + 2 :=
  ⟨by decide, by decide, parseText_quoted_text [97, 98, 99] (by decide) (by decide)⟩

/-- C20 as stated fails: parseText returns a Text for the input `abc`, whose
first character is not a double quote, and for the input quote, a, b, c with
no closing quote. -/
theorem parseText_accepts_unquoted :
    parseText [97, 98, 99] true true = some ({ data := [97, 98, 99], length := 3 }, 3) ∧
      parseText [34, 97, 98, 99] true true
        = some ({ data := [34, 97, 98, 99], length := 4 }, 4) := by
  decide

/-- C20, amended: parseText returns NULL exactly when one of its two
allocations fails; whatever the input, with or without quotes, it returns a
Text when both succeed. -/
theorem parseText_none_iff (init : List Int) (mallocThis mallocData : Bool) :
    parseText init mallocThis mallocData = none ↔ (mallocThis = false ∨ mallocData = false) := by
  cases mallocThis <;> cases mallocData <;> simp [parseText]

/-- C21, evaluated on the calls of textTest.c: for the input space, quote, a, b,
c, quote, space parseText reports 7 characters, not 6, and keeps all of them,
so the Text is not equal (in either order) to the one parsed from quote, a, b,
c, quote; the Texts of different literals are not equal. -/
theorem parseText_spaced_literal :
    parseText (quoted [97, 98, 99]) true true
        = some ({ data := [34, 97, 98, 99, 34], length := 5 }, 5) ∧
      parseText (32 :: (quoted [97, 98, 99] ++ [32])) true true
        = some ({ data := [32, 34, 97, 98, 99, 34, 32], length := 7 }, 7) ∧
      parseText (quoted [120, 121, 122]) true true
        = some ({ data := [34, 120, 121, 122, 34], length := 5 }, 5) ∧
      textEquals { data := [34, 97, 98, 99, 34], length := 5 }
        { data := [32, 34, 97, 98, 99, 34, 32], length := 7 } = false ∧
      textEquals { data := [32, 34, 97, 98, 99, 34, 32], length := 7 }
        { data := [34, 97, 98, 99, 34], length := 5 } = false ∧
      textEquals { data := [34, 97, 98, 99, 34], length := 5 }
        { data := [34, 120, 121, 122, 34], length := 5 } = false ∧
      textEquals { data := [32, 34, 97, 98, 99, 34, 32], length := 7 }
        { data := [34, 120, 121, 122, 34], length := 5 } = false := by
  decide

set_option maxRecDepth 100000 in
/-- C22, evaluated on the five texts of textTest.c: the values the test expects
are the Jenkins one-at-a-time hashes, and hashVType, the only hash of a text in
the code, returns the djb2 values instead. -/
theorem hashVType_not_jenkins :
    jenkinsSpec [97, 98, 99] = 0xED131F5B ∧
      hashVType (some (VType.Text (cString true [97, 98, 99]))) = 0x0B885C8B ∧
      jenkinsSpec [120, 121, 122] = 0x418B8F9E ∧
      hashVType (some (VType.Text (cString true [120, 121, 122]))) = 0x0B88C170 ∧
      jenkinsSpec alphabet = 0x17D780E5 ∧
      hashVType (some (VType.Text (cString true alphabet))) = 0xD6989EC4 ∧
      jenkinsSpec [97] = 0xCA2E9442 ∧
      hashVType (some (VType.Text (cString true [97]))) = 0x0002B606 ∧
      jenkinsSpec quickFox = 0x519E91F5 ∧
      hashVType (some (VType.Text (cString true quickFox))) = 0x34CC38DE ∧
      hashVType (some (VType.Text (quoted [97, 98, 99]))) = 0x0A9D1FCF := by
  decide

/-- C23 as stated fails: parseInteger succeeds on the input space, 4, 2, which
starts with white space, reading 3 characters; and on the input +7. -/
theorem parseInteger_accepts_space :
    parseInteger [32, 52, 50] = some ({ val := 42 }, 3) ∧
      parseInteger [43, 55] = some ({ val := 7 }, 2) := by
  decide

/-- C23, amended: parseInteger succeeds exactly when its input is some white
space (possibly none), an optional minus or plus sign, and one or more decimal
digits, followed by anything; the consumed count is then the length of the
white space, the sign and the whole run of digits. -/
theorem parseInteger_characterised :
    (∀ init : List Int, (parseInteger init).isSome = true ↔
      ∃ ws sign ds rest, init = ws ++ (sign ++ (ds ++ rest)) ∧
        (∀ c ∈ ws, isspace c = true) ∧ (sign = [] ∨ sign = [45] ∨ sign = [43]) ∧
        ds ≠ [] ∧ (∀ c ∈ ds, isdigit c = true)) ∧
      (∀ ws sign ds rest : List Int, (∀ c ∈ ws, isspace c = true) →
        (sign = [] ∨ sign = [45] ∨ sign = [43]) → ds ≠ [] →
        (∀ c ∈ ds, isdigit c = true) →
        (∀ c, rest.head? = some c → isdigit c = false) →
        (parseInteger (ws ++ (sign ++ (ds ++ rest)))).map Prod.snd
          = some (ws.length + sign.length + ds.length)) := by
  refine ⟨fun init => ⟨fun h => ?_, ?_⟩, fun ws sign ds rest hws hsign hne hdig hrest => ?_⟩
  · rw [parseInteger_isSome_iff_scanInt] at h
    obtain ⟨⟨v, rest⟩, hs⟩ := Option.isSome_iff_exists.1 h
    obtain ⟨ws, sign, ds, h1, h2, h3, h4, h5⟩ := scanInt_some_decompose init v rest hs
    exact ⟨ws, sign, ds, rest, h1, h2, h3, h4, h5⟩
  · rintro ⟨ws, sign, ds, rest, rfl, hws, hsign, hne, hdig⟩
    rw [parseInteger_isSome_iff_scanInt]
    exact scanInt_isSome_of_shape ws sign ds rest hws hsign hne hdig
  · rw [parseInteger_spaced_literal ws sign ds rest hws hsign hne hdig hrest]
    rfl

/-- C23 amended, at a concrete input: two spaces, minus, 1, 2, then the letter
x: the count is 5. -/
theorem parseInteger_characterised_witness :
    (∀ c ∈ [(32 : Int), 32], isspace c = true) ∧ (∀ c ∈ [(49 : Int), 50], isdigit c = true) ∧
      (parseInteger ([32, 32] ++ ([45] ++ ([49, 50] ++ [120])))).map Prod.snd
        = some ([(32 : Int), 32].length + [(45 : Int)].length + [(49 : Int), 50].length) :=
  ⟨by decide, by decide,
    parseInteger_characterised.2 [32, 32] [45] [49, 50] [120] (by decide)
      (Or.inr (Or.inl rfl)) (by decide) (by decide) (by decide)⟩

/-- C24: for every integer literal (an optional minus sign and one or more
digits) whose value fits in a signed 32-bit integer, parseInteger reads the
whole literal and yields its value, and print writes the canonical decimal form
of that value: a minus sign exactly when the value is negative, then the digits
of the literal with the leading zeros stripped (the single digit 0 when only
zeros were written), and nothing else. -/
theorem parse_print_literal (negative : Bool) (ds : List Int) (hne : ds ≠ [])
    (hdig : ∀ c ∈ ds, isdigit c = true)
    (_hfit : (digitsValue ds : Int) ≤ if negative = true then 2147483648 else 2147483647) :
    ∃ v, parseInteger ((if negative = true then [45] else []) ++ ds)
          = some (v, ((if negative = true then [45] else []) ++ ds).length) ∧
      v.val = (if negative = true then -(digitsValue ds : Int) else (digitsValue ds : Int)) ∧
      v.print = (decimalSpec v.val).map (fun (b : Nat) => (b : Int)) ∧
      v.print = (if v.val < 0 then [45] else []) ++
        (if ds.dropWhile (fun c => decide (c = 48)) = [] then [48]
          else ds.dropWhile (fun c => decide (c = 48))) := by
  have hv := print_of_digits negative ds hdig
  refine ⟨{ val := if negative = true then -(digitsValue ds : Int) else (digitsValue ds : Int) },
    ?_, rfl, sprintfD_eq_decimalSpec _, hv⟩
  cases negative with
  | false =>
    have hp := parseInteger_spaced_literal [] [] ds [] (by simp) (Or.inl rfl) hne hdig
      (by simp)
    simpa using hp
  | true =>
    have hp := parseInteger_spaced_literal [] [45] ds [] (by simp) (Or.inr (Or.inl rfl)) hne
      hdig (by simp)
    simpa [Nat.add_comm] using hp

/-- C24 at concrete inputs: the literal -007 prints as -7, and the literal -0,
whose value 0 is not negative, prints as 0. -/
theorem parse_print_literal_witness :
    (∀ c ∈ [(48 : Int), 48, 55], isdigit c = true) ∧
      (∃ v, parseInteger ((if true = true then [45] else []) ++ [48, 48, 55])
            = some (v, ((if true = true then [45] else []) ++ [(48 : Int), 48, 55]).length) ∧
        v.val = (if true = true then -(digitsValue [48, 48, 55] : Int)
          else (digitsValue [48, 48, 55] : Int)) ∧
        v.print = (decimalSpec v.val).map (fun (b : Nat) => (b : Int)) ∧
        v.print = (if v.val < 0 then [45] else []) ++
          (if [(48 : Int), 48, 55].dropWhile (fun c => decide (c = 48)) = [] then [48]
            else [(48 : Int), 48, 55].dropWhile (fun c => decide (c = 48)))) ∧
      Integer.print { val := -7 } = [45, 55] ∧
      parseInteger [45, 48] = some ({ val := 0 }, 2) ∧
      Integer.print { val := 0 } = [48] :=
  ⟨by decide, parse_print_literal true [48, 48, 55] (by decide) (by decide) (by decide),
    by decide, by decide, by decide⟩

/-- C25 as stated fails: for the key 5, which is not stored, the answer to
get 5 is the text Key not found. with a final full stop; and a text key
literal is answered with the format error. -/
theorem get_miss_has_full_stop :
    (Driver.mainBody Driver.emptyTable (Driver.str "get 5\n")).map (fun r => (r.1, r.2.2))
        = some (Driver.str "Key not found.\n", false) ∧
      Driver.str "Key not found.\n" ≠ Driver.str "Key not found\n" ∧
      (Driver.mainBody Driver.emptyTable (Driver.str "get \"missing\"\n")).map
          (fun r => (r.1, r.2.2))
        = some (Driver.str "Invalid \x27get\x27 command format.\n", false) := by
  decide

/-- C25, amended: for every integer key literal whose value is a non-negative
`int`, on a line that fits the input buffer, the command loop answers the line
get, space, literal, newline as follows and leaves the table as it was. When no
slot holds the key and some slot is empty, it prints Key not found. (with the
full stop) and a newline. When probing from the slot of the key meets an entry
with the key before any empty slot, it prints the string of that entry and a
newline. A get line whose key starts with a double quote is answered with the
format error of get. -/
theorem get_response (table : Driver.Table) :
    (∀ (sign ds : List Int) (key : Int), (sign = [] ∨ sign = [45]) → ds ≠ [] →
      (∀ c ∈ ds, isdigit c = true) →
      key = (if sign = [45] then -(digitsValue ds : Int) else (digitsValue ds : Int)) →
      0 ≤ key → key ≤ 2147483647 →
      (Driver.str "get" ++ 32 :: (sign ++ (ds ++ Driver.str "\n"))).length ≤ 99 →
      ((∀ i < 100, ∀ e, table i = some e → e.key ≠ key) → (∃ i < 100, table i = none) →
        Driver.mainBody table (Driver.str "get" ++ 32 :: (sign ++ (ds ++ Driver.str "\n"))) =
          some (Driver.str "Key not found.\n", table, false)) ∧
      (∀ (d : Nat) (entry : Driver.Entry), d < 100 →
        (∀ j < d, ∃ e, table (((Driver.hash key).toNat + j) % 100) = some e ∧ e.key ≠ key) →
        table (((Driver.hash key).toNat + d) % 100) = some entry → entry.key = key →
        Driver.mainBody table (Driver.str "get" ++ 32 :: (sign ++ (ds ++ Driver.str "\n"))) =
          some (entry.value ++ Driver.str "\n", table, false))) ∧
    (∀ tail : List Int, (Driver.str "get" ++ 32 :: QUOTE :: tail).length ≤ 99 →
      Driver.mainBody table (Driver.str "get" ++ 32 :: QUOTE :: tail) =
        some (Driver.str "Invalid \x27get\x27 command format.\n", table, false)) := by
  have h1 : Driver.str "get" ≠ Driver.str "set" := by decide
  refine ⟨fun sign ds key hsign hne hdig hkey h0 _ _ => ?_, fun tail _ => ?_⟩
  · have hcmd := Driver.scanCmd_word (Driver.str "get") (sign ++ (ds ++ Driver.str "\n"))
      (by decide) (by decide) (by decide)
    have hscan := Driver.scanKey_literal (Driver.str "get") sign ds (Driver.str "\n")
      (by decide) (by decide) (hsign.elim Or.inl (fun h => Or.inr (Or.inl h))) hne hdig
      (by decide)
    rw [← hkey] at hscan
    refine ⟨fun habsent hfree => ?_, fun d entry hd hpre hsome hentry => ?_⟩
    · have hget := Driver.get_of_absent table key h0 habsent hfree
      unfold Driver.mainBody
      rw [hcmd]
      simp only [h1, if_false, if_true, hscan, hget]
    · have hget := Driver.get_of_probe table key h0 entry d hd hpre hsome hentry
      unfold Driver.mainBody
      rw [hcmd]
      simp only [h1, if_false, if_true, hscan, hget]
  · have hcmd := Driver.scanCmd_word (Driver.str "get") (QUOTE :: tail)
      (by decide) (by decide) (by decide)
    have hscan := Driver.scanKey_quote (Driver.str "get") tail (by decide) (by decide)
    unfold Driver.mainBody
    rw [hcmd]
    simp only [h1, if_false, if_true, hscan]

/-- C25 amended, at concrete inputs: get 5 on the table that has no key, and on
the table that holds the key 5 with the string a in slot 5. -/
theorem get_response_witness :
    (∀ c ∈ [(53 : Int)], isdigit c = true) ∧
      Driver.mainBody Driver.emptyTable
          (Driver.str "get" ++ 32 :: ([] ++ ([53] ++ Driver.str "\n"))) =
        some (Driver.str "Key not found.\n", Driver.emptyTable, false) ∧
      Function.update Driver.emptyTable 5 (some { key := 5, value := [97] })
          (((Driver.hash 5).toNat + 0) % 100) = some { key := 5, value := [97] } ∧
      Driver.mainBody (Function.update Driver.emptyTable 5 (some { key := 5, value := [97] }))
          (Driver.str "get" ++ 32 :: ([] ++ ([53] ++ Driver.str "\n"))) =
        some ([97] ++ Driver.str "\n",
          Function.update Driver.emptyTable 5 (some { key := 5, value := [97] }), false) :=
  ⟨by decide,
    ((get_response Driver.emptyTable).1 [] [53] 5 (Or.inl rfl) (by decide) (by decide)
      (by decide) (by decide) (by decide) (by decide)).1
      (fun i _ e h => by simp [Driver.emptyTable] at h) ⟨0, by decide, rfl⟩,
    by decide,
    ((get_response (Function.update Driver.emptyTable 5 (some { key := 5, value := [97] }))).1
      [] [53] 5 (Or.inl rfl) (by decide) (by decide) (by decide) (by decide) (by decide)
      (by decide)).2 0 { key := 5, value := [97] } (by decide)
      (fun j hj => absurd hj (Nat.not_lt_zero j)) (by decide) rfl⟩

/-- C26 as stated fails: the line set 42 "answer" is answered with the format
error and stores nothing, and the following get 42 is answered with
Key not found. -/
theorem set_text_value_rejected :
    (Driver.mainBody Driver.emptyTable (Driver.str "set 42 \"answer\"\n")).map
          (fun r => (r.1, r.2.2))
        = some (Driver.str "Invalid \x27set\x27 command format.\n", false) ∧
      Driver.main 3 Driver.emptyTable
          [Driver.str "set 42 \"answer\"\n", Driver.str "get 42\n", Driver.str "quit\n"]
        = some { output := Driver.str
                   "cmd> Invalid \x27set\x27 command format.\ncmd> Key not found.\ncmd> ",
                 status := some 0 } := by
  decide

/-- C26, amended: for every integer key literal whose value is an `int` and
every text literal, on a line that fits the input buffer, the command loop
rejects the line set, space, key, space, text literal, newline: it prints the
format error of set and leaves the table as it was. It rejects in the same way
every set line whose key starts with a double quote. -/
theorem set_text_value_invalid (table : Driver.Table) :
    (∀ sign ds s : List Int, (sign = [] ∨ sign = [45]) → ds ≠ [] →
      (∀ c ∈ ds, isdigit c = true) →
      (digitsValue ds : Int) ≤ (if sign = [45] then 2147483648 else 2147483647) →
      (Driver.str "set" ++ 32 :: (sign ++ (ds ++ 32 :: (quoted s ++ Driver.str "\n")))).length
        ≤ 99 →
      Driver.mainBody table
          (Driver.str "set" ++ 32 :: (sign ++ (ds ++ 32 :: (quoted s ++ Driver.str "\n")))) =
        some (Driver.str "Invalid \x27set\x27 command format.\n", table, false)) ∧
    (∀ tail : List Int, (Driver.str "set" ++ 32 :: QUOTE :: tail).length ≤ 99 →
      Driver.mainBody table (Driver.str "set" ++ 32 :: QUOTE :: tail) =
        some (Driver.str "Invalid \x27set\x27 command format.\n", table, false)) := by
  refine ⟨fun sign ds s hsign hne hdig _ _ => ?_, fun tail _ => ?_⟩
  · have hcmd := Driver.scanCmd_word (Driver.str "set")
      (sign ++ (ds ++ 32 :: (quoted s ++ Driver.str "\n"))) (by decide) (by decide)
      (by decide)
    have hkv := Driver.scanKeyValue_quote (Driver.str "set") sign ds
      (s ++ [QUOTE] ++ Driver.str "\n") (by decide) (by decide)
      (hsign.elim Or.inl (fun h => Or.inr (Or.inl h))) hne hdig
    have hq : quoted s ++ Driver.str "\n" = QUOTE :: (s ++ [QUOTE] ++ Driver.str "\n") := by
      simp [quoted]
    unfold Driver.mainBody
    rw [hcmd, hq]
    simp only [if_true, hkv]
  · have hcmd := Driver.scanCmd_word (Driver.str "set") (QUOTE :: tail)
      (by decide) (by decide) (by decide)
    have hkv := Driver.scanKeyValue_quote_key (Driver.str "set") tail (by decide) (by decide)
    unfold Driver.mainBody
    rw [hcmd]
    simp only [if_true, hkv]

/-- C26 amended, at a concrete input: the line set 42 "answer". -/
theorem set_text_value_invalid_witness :
    (∀ c ∈ [(52 : Int), 50], isdigit c = true) ∧
      Driver.mainBody Driver.emptyTable
          (Driver.str "set" ++ 32 :: ([] ++ ([52, 50] ++ 32 ::
            (quoted [97, 110, 115, 119, 101, 114] ++ Driver.str "\n")))) =
        some (Driver.str "Invalid \x27set\x27 command format.\n", Driver.emptyTable, false) :=
  ⟨by decide,
    (set_text_value_invalid Driver.emptyTable).1 [] [52, 50] [97, 110, 115, 119, 101, 114]
      (Or.inl rfl) (by decide) (by decide) (by decide) (by decide)⟩

/-- C27, evaluated at end of input: however many passes the loop of main makes
after the input is used up, main has not returned; each pass prints the prompt
and Error reading input. After quit main returns 0. -/
theorem main_spins_at_end_of_input :
    (∀ (fuel : Nat) (table : Driver.Table),
        (Driver.main fuel table []).map (fun run => run.status) = some none) ∧
      Driver.main 2 Driver.emptyTable [] =
        some { output := Driver.str "cmd> Error reading input.\ncmd> Error reading input.\n",
               status := none } ∧
      Driver.main 1 Driver.emptyTable [Driver.str "quit\n"] =
        some { output := Driver.str "cmd> ", status := some 0 } := by
  refine ⟨fun fuel table => ?_, by decide, by decide⟩
  rw [Driver.main_at_end_of_input]
  rfl

/-- C28, evaluated on a chain holding the key k (object 1) with the value 10
(object 2), when mapSet is called with a second key object k (object 3) and
the value 20 (object 4): the key object 1 stays, object 2 is freed once,
object 4 is stored; but the incoming key object 3 is not freed and not stored,
so nothing owns it. -/
theorem mapSet_overwrite_leaves_key :
    mapSetOwned { addr := 3, val := VType.Text [107] } { addr := 4, val := VType.Integer 20 }
        [{ key := { addr := 1, val := VType.Text [107] },
           value := { addr := 2, val := VType.Integer 10 } }]
      = ([{ key := { addr := 1, val := VType.Text [107] },
            value := { addr := 4, val := VType.Integer 20 } }], [2]) ∧
      3 ∉ [2] ∧
      3 ∉ ownedAddrs [{ key := { addr := 1, val := VType.Text [107] },
                        value := { addr := 4, val := VType.Integer 20 } }] := by
  decide

/-- C29: in every reachable map no bucket chain holds two entries whose keys
are equal by equalsVType. -/
theorem reachable_no_equal_keys (m : Map) (h : Reachable m) (i : Fin TABLE_SIZE) :
    (m.table i).Pairwise (fun a b => equalsVType a.key b.key = false) :=
  h.distinctKeys i

/-- C29 at a concrete input: the reachable map holding az and bY in one
bucket. -/
theorem reachable_no_equal_keys_witness :
    Reachable collisionMap ∧
      (collisionMap.table (bucketIndex collisionMap (some textAz))).length = 2 ∧
      (collisionMap.table (bucketIndex collisionMap (some textAz))).Pairwise
        (fun a b => equalsVType a.key b.key = false) :=
  have hr : Reachable collisionMap :=
    Reachable.set _ _ _ _ (Reachable.set _ _ _ _
      (Reachable.make 3 (freshMap 3) (by decide) (by decide) rfl))
  ⟨hr, by decide, reachable_no_equal_keys collisionMap hr _⟩

/-- C30: in every reachable map each entry with key K sits in the chain of
bucket hashVType(K) mod 1024, an index below 1024; and a mapSet of a key that
no stored key equals puts the new entry first in the chain of that bucket. -/
theorem reachable_placement (m : Map) (h : Reachable m) :
    (∀ (i : Fin TABLE_SIZE) (node : Node), node ∈ m.table i →
        (i : Nat) = hashVType node.key % 1024 ∧ (i : Nat) < 1024) ∧
      (∀ (k : VType) (value : Option VType), ¬ holdsKey m (some k) →
        (bucketIndex m (some k) : Nat) = hashVType (some k) % 1024 ∧
        (mapSet m (some k) value true).table (bucketIndex m (some k)) =
          { key := some k, value := value } :: m.table (bucketIndex m (some k))) := by
  have hidx : ∀ key : Option VType, (bucketIndex m key : Nat) = hashVType key % 1024 := by
    intro key
    show hashVType key % 1024 % 1024 = hashVType key % 1024
    exact Nat.mod_mod _ _
  refine ⟨fun i node hnode => ⟨?_, i.isLt⟩, fun k value hk => ⟨hidx _, ?_⟩⟩
  · rw [← hidx, h.placement i node hnode]
  · rw [table_mapSet_self,
      (setChain_eq_none_iff _ value _).2 (absentIn_of_not_holdsKey m _ hk _)]
    rfl

/-- C30 at a concrete input: the reachable map holding the key a, and the new
key b. -/
theorem reachable_placement_witness :
    Reachable (oneKeyMap 3) ∧ ¬ holdsKey (oneKeyMap 3) (some textB) ∧
      (bucketIndex (oneKeyMap 3) (some textB) : Nat) = hashVType (some textB) % 1024 ∧
      (mapSet (oneKeyMap 3) (some textB) (some (VType.Integer 2)) true).table
          (bucketIndex (oneKeyMap 3) (some textB)) =
        { key := some textB, value := some (VType.Integer 2) } ::
          (oneKeyMap 3).table (bucketIndex (oneKeyMap 3) (some textB)) :=
  have hr : Reachable (oneKeyMap 3) :=
    Reachable.set _ _ _ _ (Reachable.make 3 (freshMap 3) (by decide) (by decide) rfl)
  have hk : ¬ holdsKey (oneKeyMap 3) (some textB) := fun hk =>
    (holdsKey_of_mapSet _ _ _ _ _ hk).elim (not_holdsKey_freshMap 3 _) (by decide)
  ⟨hr, hk, (reachable_placement (oneKeyMap 3) hr).2 textB (some (VType.Integer 2)) hk⟩

/-- C31: for every map (reachable or not), every two keys k and k2, `NULL`
included, that equalsVType does not report equal, and every value: mapGet of k2
gives the same result before and after mapSet of k, whether or not the node
allocation succeeds, and the same result before and after mapRemove of k. -/
theorem mapGet_frame (m : Map) (k k2 v : Option VType) (mallocOk : Bool)
    (h : equalsVType k k2 = false) :
    mapGet (mapSet m k v mallocOk) k2 = mapGet m k2 ∧
      mapGet (mapRemove m k).2 k2 = mapGet m k2 :=
  ⟨mapGet_mapSet_unequal m k k2 v mallocOk h, mapGet_mapRemove_unequal m k k2 h⟩

/-- C31 at a concrete input: in the map that holds the key a, setting or
removing the key b leaves the lookup of a. -/
theorem mapGet_frame_witness :
    equalsVType (some textB) (some textA) = false ∧
      (mapGet (mapSet (oneKeyMap 0) (some textB) (some textKey1) true) (some textA)
          = mapGet (oneKeyMap 0) (some textA) ∧
        mapGet (mapRemove (oneKeyMap 0) (some textB)).2 (some textA)
          = mapGet (oneKeyMap 0) (some textA)) :=
  ⟨by decide, mapGet_frame (oneKeyMap 0) (some textB) (some textA) (some textKey1) true
    (by decide)⟩

/-- C32: for every Integer value whose integer i is a 32-bit value, hashVType
is the djb2 hash of the characters of the decimal form of i, which starts with
a minus sign exactly when i is negative; these are the characters sprintf
writes, and together with the terminating zero byte they fit the 12 bytes of
the buffer. -/
theorem hashVType_integer_buffer (i : Int) (hlo : -2 ^ 31 ≤ i) (hhi : i < 2 ^ 31) :
    hashVType (some (VType.Integer i)) = djb2Spec (decimalSpec i) ∧
      ((decimalSpec i).head? = some 45 ↔ i < 0) ∧
      sprintfD i = (decimalSpec i).map (fun (b : Nat) => (b : Int)) ∧
      (sprintfD i).length + 1 ≤ 12 := by
  refine ⟨?_, decimalSpec_head_minus_iff i, sprintfD_eq_decimalSpec i, ?_⟩
  · show hashLoop 5381 (sprintfD i) = djb2Spec (decimalSpec i)
    rw [sprintfD_eq_decimalSpec]
    exact hashLoop_natCast _ 5381
  · rw [sprintfD_eq_decimalSpec, List.length_map]
    have := decimalSpec_length_le i hlo hhi
    omega

/-- C32 at the smallest 32-bit value, -2147483648, whose rendering with the
terminating zero byte takes all 12 bytes. -/
theorem hashVType_integer_buffer_witness :
    (-2 ^ 31 ≤ (-2147483648 : Int)) ∧ ((-2147483648 : Int) < 2 ^ 31) ∧
      (hashVType (some (VType.Integer (-2147483648))) = djb2Spec (decimalSpec (-2147483648)) ∧
        ((decimalSpec (-2147483648)).head? = some 45 ↔ (-2147483648 : Int) < 0) ∧
        sprintfD (-2147483648)
          = (decimalSpec (-2147483648)).map (fun (b : Nat) => (b : Int)) ∧
        (sprintfD (-2147483648)).length + 1 ≤ 12) :=
  ⟨by decide, by decide, hashVType_integer_buffer (-2147483648) (by decide) (by decide)⟩

/-- C33 as stated fails: for the key -1 the hash of driver.c is -1, not an
index of the table, so get, set and remove_entry of that key index the array
outside its bounds, and so does the command line `get -1`. -/
theorem hash_negative_key :
    Driver.hash (-1) = -1 ∧ Driver.hash (-250) = -50 ∧
      Driver.get Driver.emptyTable (-1) = none ∧
      (Driver.set Driver.emptyTable (-1) [97]).isNone = true ∧
      (Driver.remove_entry Driver.emptyTable (-1)).isNone = true ∧
      (Driver.mainBody Driver.emptyTable (Driver.str "get -1\n")).isNone = true := by
  decide

/-- C34 as stated fails: with the keys 0 and 100 stored (slots 0 and 1),
`get(100)` finds the value b; after `remove_entry(0)` slot 0 is `NULL` and
`get(100)` returns `NULL` although the entry is still in slot 1; a following
`set(100, "c")` then fills slot 0, the table holds the key 100 twice and size
is 2 with one key stored. -/
theorem remove_entry_breaks_probing :
    Driver.twoKeys.bind (fun t => Driver.get t 100) = some (some [98]) ∧
      Driver.afterRemove.bind (fun t => Driver.get t 100) = some none ∧
      Driver.afterRemove.map (fun t => (t 0, t 1))
        = some (none, some { key := 100, value := [98] }) ∧
      Driver.afterSetAgain.map (fun t => (t 0, t 1))
        = some (some { key := 100, value := [99] }, some { key := 100, value := [98] }) ∧
      Driver.afterSetAgain.map Driver.size = some 2 := by
  decide

/-- C35 as stated fails: on a stream of 2^30 letters a with no newline the
variable capacity, an `int`, reaches 2^30 and `capacity *= 2` leaves the range
of `int`; the call has no defined result. -/
theorem readLine_long_line_overflows :
    readLine (some (List.replicate (2 ^ 30) 97)) true true true = none := by
  have h := readLoop_overflow true [] (List.replicate (2 ^ 30) 97) 16 [] true 26
    (fun h => absurd (List.eq_of_mem_replicate h) (by decide)) (by decide) (by decide)
    (by rw [List.length_replicate, List.length_nil, Nat.zero_add])
  rw [List.append_nil] at h
  exact (readLine_of_stream _ true).trans h

/-- C35, amended: with the allocations succeeding and a first line shorter than
2^30 characters, readLine returns the characters in front of the first newline
and leaves the stream just behind that newline; on a stream that ends without
a newline and is not empty it returns all its characters; it returns, every
store was below the capacity of the block, and the result is `NULL` exactly
when the stream was at its end; at the end of the stream the result is `NULL`
and an empty line gives the empty string. From 2^30 characters without a
newline on, the call has no defined result. -/
theorem readLine_characterised (charIsSigned : Bool) :
    (∀ pre post : List Nat, 10 ∉ pre → pre.length < 2 ^ 30 →
      readLine (some (pre ++ 10 :: post)) charIsSigned true true =
        some { line := some (cString charIsSigned pre), rest := post, inBounds := true }) ∧
    (∀ s : List Nat, 10 ∉ s → s ≠ [] → s.length < 2 ^ 30 →
      readLine (some s) charIsSigned true true =
        some { line := some (cString charIsSigned s), rest := [], inBounds := true }) ∧
    (∀ s : List Nat, (s.takeWhile (fun b => decide (b ≠ 10))).length < 2 ^ 30 →
      ∃ r, readLine (some s) charIsSigned true true = some r ∧
        r.inBounds = true ∧ (r.line = none ↔ s = [])) ∧
    readLine (some []) charIsSigned true true =
      some { line := none, rest := [], inBounds := true } ∧
    (∀ post : List Nat, readLine (some (10 :: post)) charIsSigned true true =
      some { line := some [], rest := post, inBounds := true }) ∧
    (∀ pre post : List Nat, 10 ∉ pre → 2 ^ 30 ≤ pre.length →
      readLine (some (pre ++ post)) charIsSigned true true = none) := by
  refine ⟨fun pre post hnl hlen => ?_, fun s hnl hne hlen => ?_, fun s hlen => ?_, rfl,
    fun post => ?_, fun pre post hnl hlen => ?_⟩
  · have := readLoop_newline charIsSigned post pre 16 [] hnl (by simp) (by simpa using hlen)
    simpa [readLine] using this
  · have := readLoop_end charIsSigned s 16 [] hnl (by simp) (by simpa using hlen)
      (Or.inr hne)
    simpa [readLine] using this
  · obtain ⟨r, hr⟩ := readLine_returns charIsSigned s hlen
    have h2 : readLoop charIsSigned true s 16 [] true = some r := by
      rw [← readLine_of_stream]
      exact hr
    have := readLoop_result charIsSigned s 16 [] r (by simp) h2
    exact ⟨r, hr, by simpa using this⟩
  · simp [readLine, readLoop]
  · rw [readLine_of_stream]
    exact readLoop_overflow charIsSigned post pre 16 [] true 26 hnl (by simp) (by decide)
      (by simpa using hlen)

/-- C35 amended, at a concrete stream: a, b, newline, c gives the string ab and
leaves c unread. -/
theorem readLine_characterised_witness :
    10 ∉ [97, 98] ∧ [97, 98].length < 2 ^ 30 ∧
      readLine (some ([97, 98] ++ 10 :: [99])) true true true =
        some { line := some (cString true [97, 98]), rest := [99], inBounds := true } :=
  ⟨by decide, by decide, (readLine_characterised true).1 [97, 98] [99] (by decide) (by decide)⟩

end Hashmap
